import Mathlib

set_option maxHeartbeats 1000000
set_option linter.unusedVariables false

/-!
Verification of `src/pyperf/_process_time.py` against its specification.

The Python module is shallowly embedded: pure computations become Lean
functions, the interactions with the operating system (the wall clock, the
`getrusage` peak-RSS counter, child-process exit codes, the bytes a profiled
child writes to its temporary statistics file, hook teardown effects and the
textual rendering of floats) are supplied as explicit oracle inputs in a
`World` record, and the on-disk state touched by the profile merger is an
explicit association list from paths to statistics files.  Each run produces
an ordered event trace so that claims about ordering (clock reads, memory
samples, hook lifecycle) can be stated directly.
-/

namespace PyperfProcTime

/-- Profiling statistics of one function inside a `pstats` file.
`pstats.Stats.add` sums call counts and the recorded times of the same
function entry; the additive payload is modelled by a primitive call count
and a cumulative time. -/
structure FuncStat where
  callcount : Nat
  cumtime : ℚ
  deriving DecidableEq

/-- Content of one `pstats` statistics file: function key to statistics,
insertion ordered (a Python dict). -/
abbrev Stats := List (String × FuncStat)

/-- The statistics of a function that is absent from a file. -/
def zeroStat : FuncStat := ⟨0, 0⟩

/-- Additive combination of two per-function entries, as `pstats.Stats.add`
performs it (counts and times summed, never averaged or replaced). -/
def FuncStat.add (a b : FuncStat) : FuncStat :=
  ⟨a.callcount + b.callcount, a.cumtime + b.cumtime⟩

/-- Dictionary lookup in a statistics file, with the zero entry for an
absent function. -/
def statLookup : Stats → String → FuncStat
  | [], _ => zeroStat
  | e :: rest, k => if e.1 = k then e.2 else statLookup rest k

/-- Whether a statistics file has an entry for the given function key. -/
def hasKey : Stats → String → Bool
  | [], _ => false
  | e :: rest, k => if e.1 = k then true else hasKey rest k

/-- One step of `pstats.Stats.add`: fold a single source entry into the
destination dictionary (sum into the existing entry, else append). -/
def statsAddEntry (d : Stats) (e : String × FuncStat) : Stats :=
  if hasKey d e.1 then
    d.map (fun p => if p.1 = e.1 then (p.1, FuncStat.add p.2 e.2) else p)
  else
    d ++ [e]

/-- `dst_stats.add(src_stats)`: every source entry is folded additively into
the destination. -/
def statsAdd (dst src : Stats) : Stats := src.foldl statsAddEntry dst

/-- A file path. -/
abbrev Path := String

/-- The file system state relevant to the merger: a finite map from paths to
statistics files, as an association list. -/
abbrev FS := List (Path × Stats)

/-- Content of the file at a path, if the file exists. -/
def fsLookup : FS → Path → Option Stats
  | [], _ => none
  | e :: rest, p => if e.1 = p then some e.2 else fsLookup rest p

/-- Remove every entry at a path (`os.unlink` / the removal half of
`os.rename`). -/
def fsErase : FS → Path → FS
  | [], _ => []
  | e :: rest, p => if e.1 = p then fsErase rest p else e :: fsErase rest p

/-- `os.path.isfile`. -/
def isfile (fs : FS) (p : Path) : Bool := (fsLookup fs p).isSome

/-- Write (create or overwrite) the file at a path (`dump_stats`). -/
def fsWrite (fs : FS) (p : Path) (s : Stats) : FS := (p, s) :: fsErase fs p

/-- `merge_profile_stats_files(src, dst)` from the source: if `dst` is a
file, load both statistics files, add the source into the destination, dump
the combined statistics back to `dst` and unlink `src`; otherwise rename
`src` to `dst`.  Loading or renaming a missing source raises, modelled by
`none`. -/
def merge_profile_stats_files (fs : FS) (src dst : Path) : Option FS :=
  if isfile fs dst then
    match fsLookup fs src, fsLookup fs dst with
    | some srcStats, some dstStats =>
        some (fsErase (fsWrite fs dst (statsAdd dstStats srcStats)) src)
    | _, _ => none
  else
    match fsLookup fs src with
    | some s => some (fsWrite (fsErase fs src) dst s)
    | none => none

/-! ### Association-list lemmas for the statistics model -/

theorem statLookup_of_hasKey_eq_false {d : Stats} {k : String}
    (h : hasKey d k = false) : statLookup d k = zeroStat := by
  induction d with
  | nil => rfl
  | cons e rest ih =>
    by_cases he : e.1 = k
    · simp [hasKey, he] at h
    · simp [hasKey, he] at h
      simp [statLookup, he, ih h]

theorem hasKey_eq_false_of_not_mem {d : Stats} {k : String}
    (h : k ∉ d.map Prod.fst) : hasKey d k = false := by
  induction d with
  | nil => rfl
  | cons e rest ih =>
    simp only [List.map_cons, List.mem_cons] at h
    push_neg at h
    have he : ¬ e.1 = k := fun hh => h.1 hh.symm
    simp [hasKey, he, ih h.2]

theorem FuncStat.add_zero (a : FuncStat) : FuncStat.add a zeroStat = a := by
  cases a; simp [FuncStat.add, zeroStat]

theorem FuncStat.zero_add (a : FuncStat) : FuncStat.add zeroStat a = a := by
  cases a; simp [FuncStat.add, zeroStat]

theorem statLookup_append (d d' : Stats) (k : String) :
    statLookup (d ++ d') k =
      (if hasKey d k then statLookup d k else statLookup d' k) := by
  induction d with
  | nil => simp [statLookup, hasKey]
  | cons e rest ih =>
    by_cases he : e.1 = k
    · simp [statLookup, hasKey, he]
    · simp [statLookup, hasKey, he, ih]

theorem statLookup_mapAdd_ne {d : Stats} {a k : String} {v : FuncStat}
    (hk : ¬ k = a) :
    statLookup (d.map (fun p => if p.1 = a then (p.1, FuncStat.add p.2 v) else p)) k =
      statLookup d k := by
  have hak : ¬ a = k := fun hh => hk hh.symm
  induction d with
  | nil => rfl
  | cons e rest ih =>
    by_cases hea : e.1 = a
    · have hek : ¬ e.1 = k := fun hh => hk (hh.symm.trans hea)
      simp [statLookup, hea, hek, hak, ih]
    · by_cases hek : e.1 = k
      · simp [statLookup, hea, hek, hk, hak, ih]
      · simp [statLookup, hea, hek, ih]

theorem statLookup_mapAdd_self {d : Stats} {a : String} {v : FuncStat}
    (h : hasKey d a = true) :
    statLookup (d.map (fun p => if p.1 = a then (p.1, FuncStat.add p.2 v) else p)) a =
      FuncStat.add (statLookup d a) v := by
  induction d with
  | nil => simp [hasKey] at h
  | cons e rest ih =>
    by_cases hea : e.1 = a
    · simp [statLookup, hea]
    · simp [hasKey, hea] at h
      simp [statLookup, hea, ih h]

theorem statLookup_statsAddEntry (d : Stats) (a : String) (v : FuncStat) (k : String) :
    statLookup (statsAddEntry d (a, v)) k =
      (if k = a then FuncStat.add (statLookup d k) v else statLookup d k) := by
  unfold statsAddEntry
  by_cases hd : hasKey d a
  · simp only [hd, if_true]
    by_cases hk : k = a
    · subst hk; simp [statLookup_mapAdd_self hd]
    · simp [hk, statLookup_mapAdd_ne hk]
  · simp only [Bool.not_eq_true] at hd
    simp only [hd, Bool.false_eq_true, if_false]
    rw [statLookup_append]
    by_cases hk : k = a
    · subst hk
      simp [hd, statLookup, statLookup_of_hasKey_eq_false hd, FuncStat.zero_add]
    · by_cases hdk : hasKey d k
      · simp [hdk, hk]
      · simp only [Bool.not_eq_true] at hdk
        have hne : ¬ a = k := fun hh => hk hh.symm
        simp [hdk, hk, statLookup, hne, statLookup_of_hasKey_eq_false hdk]

/-- The combined statistics file produced by `pstats.Stats.add` is the
key-wise additive combination of the two inputs (source files have no
duplicate function keys). -/
theorem statLookup_statsAdd (dst src : Stats) (k : String)
    (hnodup : (src.map Prod.fst).Nodup) :
    statLookup (statsAdd dst src) k =
      FuncStat.add (statLookup dst k) (statLookup src k) := by
  induction src generalizing dst with
  | nil => simp [statsAdd, statLookup, FuncStat.add_zero]
  | cons e rest ih =>
    obtain ⟨a, v⟩ := e
    simp only [List.map_cons, List.nodup_cons] at hnodup
    have hrest := ih (statsAddEntry dst (a, v)) hnodup.2
    have hstep := statLookup_statsAddEntry dst a v k
    show statLookup (statsAdd (statsAddEntry dst (a, v)) rest) k = _
    rw [hrest, hstep]
    by_cases hk : k = a
    · subst hk
      have : statLookup rest k = zeroStat :=
        statLookup_of_hasKey_eq_false (hasKey_eq_false_of_not_mem hnodup.1)
      simp [statLookup, this, FuncStat.add_zero, FuncStat.add, zeroStat]
    · have hne : ¬ a = k := fun hh => hk hh.symm
      simp [statLookup, hne, hk]

/-! ### File-system lemmas -/

theorem fsLookup_fsErase_self (fs : FS) (p : Path) :
    fsLookup (fsErase fs p) p = none := by
  induction fs with
  | nil => rfl
  | cons e rest ih =>
    by_cases he : e.1 = p
    · simp [fsErase, he, ih]
    · simp [fsErase, fsLookup, he, ih]

theorem fsLookup_fsErase_ne (fs : FS) (p q : Path) (h : ¬ q = p) :
    fsLookup (fsErase fs p) q = fsLookup fs q := by
  have hpq : ¬ p = q := fun hh => h hh.symm
  induction fs with
  | nil => rfl
  | cons e rest ih =>
    by_cases he : e.1 = p
    · have heq : ¬ e.1 = q := fun hh => h (hh.symm.trans he)
      simp [fsErase, fsLookup, he, heq, hpq, ih]
    · simp [fsErase, fsLookup, he, ih]

theorem isfile_fsErase_self (fs : FS) (p : Path) :
    isfile (fsErase fs p) p = false := by
  simp [isfile, fsLookup_fsErase_self]

theorem fsLookup_fsWrite_self (fs : FS) (p : Path) (s : Stats) :
    fsLookup (fsWrite fs p s) p = some s := by
  simp [fsWrite, fsLookup]

theorem fsLookup_fsWrite_ne (fs : FS) (p q : Path) (s : Stats) (h : ¬ q = p) :
    fsLookup (fsWrite fs p s) q = fsLookup fs q := by
  have hne : ¬ p = q := fun hh => h hh.symm
  simp [fsWrite, fsLookup, hne, fsLookup_fsErase_ne fs p q h]

theorem isfile_eq_true_iff (fs : FS) (p : Path) :
    isfile fs p = true ↔ ∃ s, fsLookup fs p = some s := by
  simp [isfile, Option.isSome_iff_exists]

/-- The profile merger always succeeds when the source statistics file
exists. -/
theorem merge_of_src_exists {fs : FS} {src dst : Path} {s : Stats}
    (h : fsLookup fs src = some s) :
    ∃ fs2, merge_profile_stats_files fs src dst = some fs2 := by
  unfold merge_profile_stats_files
  by_cases hd : isfile fs dst
  · obtain ⟨d, hdl⟩ := (isfile_eq_true_iff fs dst).mp hd
    simp [hd, h, hdl]
  · simp only [Bool.not_eq_true] at hd
    simp [hd, h]

/-- C4 (confirmed): for every call to the profile merger with an existing
source statistics file, if the destination does not exist the source is
moved to the destination; otherwise both files are loaded, combined
additively key by key, the combination is written back to the destination
and the source is deleted.  In both cases the merge succeeds and the source
file does not remain on disk alongside the destination. -/
theorem C4_merge_semantics (fs : FS) (src dst : Path) (s : Stats)
    (hsrc : fsLookup fs src = some s) (hne : ¬ src = dst)
    (hnodup : (s.map Prod.fst).Nodup) :
    ∃ fs2, merge_profile_stats_files fs src dst = some fs2 ∧
      isfile fs2 src = false ∧
      ((fsLookup fs dst = none → fsLookup fs2 dst = some s) ∧
       (∀ d, fsLookup fs dst = some d →
          ∃ t, fsLookup fs2 dst = some t ∧
            ∀ k, statLookup t k = FuncStat.add (statLookup d k) (statLookup s k))) := by
  have hdne : ¬ dst = src := fun hh => hne hh.symm
  unfold merge_profile_stats_files
  by_cases hd : isfile fs dst
  · obtain ⟨d, hdl⟩ := (isfile_eq_true_iff fs dst).mp hd
    refine ⟨fsErase (fsWrite fs dst (statsAdd d s)) src, ?_, ?_, ?_, ?_⟩
    · simp [hd, hsrc, hdl]
    · simp [isfile, fsLookup_fsErase_self]
    · intro h0; rw [h0] at hdl; exact absurd hdl (by simp)
    · intro d' hd'
      rw [hdl] at hd'
      obtain rfl : d = d' := by injection hd'
      refine ⟨statsAdd d s, ?_, fun k => statLookup_statsAdd d s k hnodup⟩
      rw [fsLookup_fsErase_ne _ _ _ hdne, fsLookup_fsWrite_self]
  · simp only [Bool.not_eq_true] at hd
    refine ⟨fsWrite (fsErase fs src) dst s, ?_, ?_, ?_, ?_⟩
    · simp [hd, hsrc]
    · simp [isfile, fsLookup_fsWrite_ne _ _ _ _ hne, fsLookup_fsErase_self]
    · intro _; exact fsLookup_fsWrite_self _ _ _
    · intro d hdl
      have : isfile fs dst = true := by
        rw [isfile_eq_true_iff]; exact ⟨d, hdl⟩
      rw [this] at hd; cases hd

/-- C4 witness: the merger evaluated at a concrete file system where the
destination already exists. -/
theorem C4_merge_semantics_witness :
    (fsLookup [("a.prof", [("f", (⟨2, 3⟩ : FuncStat))]),
               ("b.prof", [("f", (⟨5, 7⟩ : FuncStat))])] ("a.prof") =
        some [("f", (⟨2, 3⟩ : FuncStat))] ∧
      ¬ ("a.prof" : Path) = "b.prof" ∧
      (([("f", (⟨2, 3⟩ : FuncStat))] : Stats).map Prod.fst).Nodup) ∧
    (∃ fs2, merge_profile_stats_files
        [("a.prof", [("f", (⟨2, 3⟩ : FuncStat))]),
         ("b.prof", [("f", (⟨5, 7⟩ : FuncStat))])] ("a.prof") ("b.prof") = some fs2 ∧
      isfile fs2 ("a.prof") = false ∧
      ((fsLookup [("a.prof", [("f", (⟨2, 3⟩ : FuncStat))]),
                  ("b.prof", [("f", (⟨5, 7⟩ : FuncStat))])] ("b.prof") = none →
          fsLookup fs2 ("b.prof") = some [("f", (⟨2, 3⟩ : FuncStat))]) ∧
       (∀ d, fsLookup [("a.prof", [("f", (⟨2, 3⟩ : FuncStat))]),
                       ("b.prof", [("f", (⟨5, 7⟩ : FuncStat))])] ("b.prof") = some d →
          ∃ t, fsLookup fs2 ("b.prof") = some t ∧
            ∀ k, statLookup t k =
              FuncStat.add (statLookup d k)
                (statLookup [("f", (⟨2, 3⟩ : FuncStat))] k)))) :=
  ⟨⟨by decide, by decide, by decide⟩,
   C4_merge_semantics _ ("a.prof") ("b.prof") _ (by decide) (by decide) (by decide)⟩

/-! ### Rendering of the three output lines (`write_data`) -/

/-- A character list mentions no newline: the content fits on one line. -/
abbrev noNL (l : List Char) : Prop := '\n' ∉ l

/-- A decimal digit character. -/
def digChar : Nat → Char
  | 0 => '0' | 1 => '1' | 2 => '2' | 3 => '3' | 4 => '4'
  | 5 => '5' | 6 => '6' | 7 => '7' | 8 => '8' | _ => '9'

/-- Decimal digits of a natural number, fuel-bounded recursion on `n / 10`. -/
def natDigs : Nat → Nat → List Char
  | 0, _ => []
  | f + 1, n =>
    if n < 10 then [digChar n] else natDigs f (n / 10) ++ [digChar (n % 10)]

/-- Decimal rendering of a natural number (`str` on a non-negative int). -/
def natChars (n : Nat) : List Char := natDigs (n + 1) n

/-- Decimal rendering of an integer (`str(int)` in Python). -/
def intChars (z : Int) : List Char :=
  if z < 0 then '-' :: natChars z.natAbs else natChars z.toNat

/-- A hexadecimal digit character. -/
def hexChar : Nat → Char
  | 0 => '0' | 1 => '1' | 2 => '2' | 3 => '3' | 4 => '4'
  | 5 => '5' | 6 => '6' | 7 => '7' | 8 => '8' | 9 => '9'
  | 10 => 'a' | 11 => 'b' | 12 => 'c' | 13 => 'd' | 14 => 'e' | _ => 'f'

/-- `json.dump` escaping of one character inside a JSON string literal:
quotes, backslashes and control characters are escaped, so the encoded
text never contains a raw newline. -/
def jsonEscapeChar (c : Char) : List Char :=
  if c = '"' then ['\\', '"']
  else if c = '\\' then ['\\', '\\']
  else if c = '\n' then ['\\', 'n']
  else if c = '\r' then ['\\', 'r']
  else if c = '\t' then ['\\', 't']
  else if c.toNat < 32 then
    ['\\', 'u', '0', '0', hexChar (c.toNat / 16), hexChar (c.toNat % 16)]
  else [c]

/-- The metadata mapping: string keys to string-rendered JSON values,
insertion ordered (a Python dict). -/
abbrev Metadata := List (String × String)

/-- JSON string literal for a text value. -/
def jsonStringChars (s : String) : List Char :=
  '"' :: (s.data.map jsonEscapeChar).join ++ ['"']

/-- One `"key": "value"` member of the JSON object. -/
def jsonPairChars (p : String × String) : List Char :=
  jsonStringChars p.1 ++ ':' :: ' ' :: jsonStringChars p.2

/-- The members of the JSON object joined with the default `", "`
separator of `json.dump`. -/
def jsonPairsChars : Metadata → List Char
  | [] => []
  | [p] => jsonPairChars p
  | p :: q :: rest => jsonPairChars p ++ ',' :: ' ' :: jsonPairsChars (q :: rest)

/-- `json.dump(metadata, fp=out)`: the metadata mapping as a single-line
JSON object. -/
def jsonEncodeMeta (m : Metadata) : List Char :=
  '\x7b' :: jsonPairsChars m ++ ['\x7d']

/-- The value printed on the second line: Python `max_rss or -1`.  An
integer is falsy exactly when it is zero, so `-1` is printed whenever the
accumulated value is `0`. -/
def memLine (max_rss : Int) : Int := if max_rss = 0 then -1 else max_rss

/-- `write_data(dt, max_rss, metadata)`: the exact character stream written
to the output, three newline-terminated lines from the source's
`print(dt)`, `print(max_rss or -1)`, `json.dump(metadata)` + `print()`.
The textual rendering of the float `dt` is abstracted to the string
`dtStr`. -/
def writeData (dtStr : String) (max_rss : Int) (metadata : Metadata) : List Char :=
  (dtStr.data ++ ['\n']) ++ (intChars (memLine max_rss) ++ ['\n']) ++
    (jsonEncodeMeta metadata ++ ['\n'])

/-- Split a character stream into lines at each newline. -/
def linesOfAux : List Char → List Char → List (List Char)
  | [], acc => [acc.reverse]
  | c :: rest, acc =>
    if c = '\n' then acc.reverse :: linesOfAux rest [] else linesOfAux rest (c :: acc)

/-- The lines of a character stream; a final newline contributes a
trailing empty segment. -/
def linesOf (l : List Char) : List (List Char) := linesOfAux l []

/-! ### Newline-freeness of the rendered pieces -/

theorem digChar_ne_nl : ∀ d : Nat, ¬ digChar d = '\n'
  | 0 => by decide
  | 1 => by decide
  | 2 => by decide
  | 3 => by decide
  | 4 => by decide
  | 5 => by decide
  | 6 => by decide
  | 7 => by decide
  | 8 => by decide
  | _ + 9 => by show ¬ '9' = '\n'; decide

theorem hexChar_ne_nl : ∀ d : Nat, ¬ hexChar d = '\n'
  | 0 => by decide
  | 1 => by decide
  | 2 => by decide
  | 3 => by decide
  | 4 => by decide
  | 5 => by decide
  | 6 => by decide
  | 7 => by decide
  | 8 => by decide
  | 9 => by decide
  | 10 => by decide
  | 11 => by decide
  | 12 => by decide
  | 13 => by decide
  | 14 => by decide
  | _ + 15 => by show ¬ 'f' = '\n'; decide

theorem noNL_natDigs (f : Nat) : ∀ n, noNL (natDigs f n) := by
  induction f with
  | zero => intro n hm; simp [natDigs] at hm
  | succ f ih =>
    intro n hm
    unfold natDigs at hm
    by_cases h : n < 10
    · rw [if_pos h] at hm
      rcases List.mem_cons.mp hm with h2 | h2
      · exact digChar_ne_nl n h2.symm
      · simp at h2
    · rw [if_neg h] at hm
      rcases List.mem_append.mp hm with h2 | h2
      · exact ih (n / 10) h2
      · rcases List.mem_cons.mp h2 with h3 | h3
        · exact digChar_ne_nl (n % 10) h3.symm
        · simp at h3

theorem noNL_intChars (z : Int) : noNL (intChars z) := by
  unfold intChars
  by_cases h : z < 0
  · rw [if_pos h]
    intro hm
    rcases List.mem_cons.mp hm with h2 | h2
    · exact absurd h2 (by decide)
    · exact noNL_natDigs _ _ h2
  · rw [if_neg h]
    exact noNL_natDigs _ _

theorem noNL_jsonEscapeChar (c : Char) : noNL (jsonEscapeChar c) := by
  unfold jsonEscapeChar
  by_cases h1 : c = '"'
  · rw [if_pos h1]; decide
  rw [if_neg h1]
  by_cases h2 : c = '\\'
  · rw [if_pos h2]; decide
  rw [if_neg h2]
  by_cases h3 : c = '\n'
  · rw [if_pos h3]; decide
  rw [if_neg h3]
  by_cases h4 : c = '\r'
  · rw [if_pos h4]; decide
  rw [if_neg h4]
  by_cases h5 : c = '\t'
  · rw [if_pos h5]; decide
  rw [if_neg h5]
  by_cases h6 : c.toNat < 32
  · rw [if_pos h6]
    intro hm
    simp only [List.mem_cons, List.not_mem_nil, or_false] at hm
    rcases hm with h | h | h | h | h | h
    · exact absurd h (by decide)
    · exact absurd h (by decide)
    · exact absurd h (by decide)
    · exact absurd h (by decide)
    · exact hexChar_ne_nl _ h.symm
    · exact hexChar_ne_nl _ h.symm
  · rw [if_neg h6]
    intro hm
    rcases List.mem_cons.mp hm with h | h
    · exact h3 h.symm
    · simp at h

theorem noNL_jsonStringChars (s : String) : noNL (jsonStringChars s) := by
  intro hm
  unfold jsonStringChars at hm
  rcases List.mem_cons.mp hm with h | h
  · exact absurd h (by decide)
  rcases List.mem_append.mp h with h | h
  · rcases List.mem_join.mp h with ⟨l, hl, hml⟩
    rcases List.mem_map.mp hl with ⟨c, _, rfl⟩
    exact noNL_jsonEscapeChar c hml
  · rcases List.mem_cons.mp h with h | h
    · exact absurd h (by decide)
    · simp at h

theorem noNL_jsonPairChars (p : String × String) : noNL (jsonPairChars p) := by
  intro hm
  unfold jsonPairChars at hm
  rcases List.mem_append.mp hm with h | h
  · exact noNL_jsonStringChars _ h
  rcases List.mem_cons.mp h with h | h
  · exact absurd h (by decide)
  rcases List.mem_cons.mp h with h | h
  · exact absurd h (by decide)
  · exact noNL_jsonStringChars _ h

theorem noNL_jsonPairsChars : ∀ m : Metadata, noNL (jsonPairsChars m)
  | [] => by simp [jsonPairsChars, noNL]
  | [p] => by
    intro hm
    exact noNL_jsonPairChars p (by simpa [jsonPairsChars] using hm)
  | p :: q :: rest => by
    intro hm
    simp only [jsonPairsChars] at hm
    rcases List.mem_append.mp hm with h | h
    · exact noNL_jsonPairChars p h
    rcases List.mem_cons.mp h with h | h
    · exact absurd h (by decide)
    rcases List.mem_cons.mp h with h | h
    · exact absurd h (by decide)
    · exact noNL_jsonPairsChars (q :: rest) h

theorem noNL_jsonEncodeMeta (m : Metadata) : noNL (jsonEncodeMeta m) := by
  intro hm
  unfold jsonEncodeMeta at hm
  rcases List.mem_cons.mp hm with h | h
  · exact absurd h (by decide)
  rcases List.mem_append.mp h with h | h
  · exact noNL_jsonPairsChars m h
  · rcases List.mem_cons.mp h with h | h
    · exact absurd h (by decide)
    · simp at h

/-! ### Line structure of the emitted stream -/

theorem linesOfAux_split (a : List Char) :
    ∀ (acc rest : List Char), '\n' ∉ a →
      linesOfAux (a ++ '\n' :: rest) acc = (acc.reverse ++ a) :: linesOfAux rest [] := by
  induction a with
  | nil =>
    intro acc rest _
    simp [linesOfAux]
  | cons c a ih =>
    intro acc rest h
    have hc : ¬ c = '\n' := by
      intro hh; exact h (by simp [hh])
    have ha : '\n' ∉ a := fun hm => h (List.mem_cons_of_mem _ hm)
    have step : linesOfAux ((c :: a) ++ '\n' :: rest) acc =
        linesOfAux (a ++ '\n' :: rest) (c :: acc) := by
      simp only [List.cons_append, linesOfAux]
      rw [if_neg hc]
      rfl
    rw [step, ih (c :: acc) rest ha]
    simp

theorem linesOf_split (a rest : List Char) (h : '\n' ∉ a) :
    linesOf (a ++ '\n' :: rest) = a :: linesOf rest := by
  unfold linesOf
  rw [linesOfAux_split a [] rest h]
  simp

/-- The emitted stream splits into exactly the three expected
newline-terminated lines. -/
theorem writeData_linesOf (dtStr : String) (m : Int) (meta : Metadata)
    (h : noNL dtStr.data) :
    linesOf (writeData dtStr m meta) =
      [dtStr.data, intChars (memLine m), jsonEncodeMeta meta, []] := by
  unfold writeData
  simp only [List.append_assoc, List.singleton_append, List.cons_append, List.nil_append]
  rw [linesOf_split _ _ h, linesOf_split _ _ (noNL_intChars _),
    linesOf_split _ _ (noNL_jsonEncodeMeta _)]
  rfl

/-- C7 (confirmed): the result emitter writes exactly three lines, in fixed
order: the elapsed time, the peak memory value (with the `-1` sentinel
exactly when the accumulated value is zero), and the metadata mapping as a
single-line JSON record terminated by a newline — never more, fewer, or
reordered lines (the float rendering of the elapsed time contains no
newline). -/
theorem C7_three_line_output (dtStr : String) (max_rss : Int) (metadata : Metadata)
    (h : noNL dtStr.data) :
    linesOf (writeData dtStr max_rss metadata) =
      [dtStr.data, intChars (memLine max_rss), jsonEncodeMeta metadata, []] :=
  writeData_linesOf dtStr max_rss metadata h

/-- C7 witness: the emitter evaluated on a concrete elapsed-time rendering,
memory value and metadata mapping. -/
theorem C7_three_line_output_witness :
    noNL ("0.25").data ∧
    linesOf (writeData ("0.25") 7 [("hooks", "x")]) =
      [['0', '.', '2', '5'], ['7'],
       ['\x7b', '"', 'h', 'o', 'o', 'k', 's', '"', ':', ' ', '"', 'x', '"', '\x7d'], []] :=
  ⟨by decide, by rw [C7_three_line_output ("0.25") 7 [("hooks", "x")] (by decide)]; rfl⟩

/-! ### The benchmark loop (`bench_process`) -/

/-- Environment oracles for one harness run: whether the `resource` module
imported, the platform, the successive `getrusage` children peak-RSS
readings, the successive `time.perf_counter` readings, each child's exit
status, the statistics each profiled child writes to the temporary file,
the initial file system, the `tempfile.mktemp()` name, the installed hook
plugins, the opaque effect of each hook's `teardown` on the metadata
mapping, and the textual rendering of floats. -/
structure World where
  res_available : Bool
  darwin : Bool
  ru : Nat → Nat
  clock : Nat → ℚ
  exitc : Nat → Int
  childOut : Nat → Option Stats
  fs0 : FS
  temp : Path
  knownHooks : List String
  teardownEff : String → Metadata → Metadata
  floatRepr : ℚ → String

/-- `get_max_rss(children=...)` from the source: if the `resource` module is
available, return the `ru_maxrss` counter (bytes on macOS, kilobytes times
1024 on Linux); otherwise return 0.  The counter value read from
`getrusage` is the input `ru_maxrss`. -/
def get_max_rss (res_available darwin : Bool) (ru_maxrss : Nat) : Int :=
  if res_available then
    (if darwin then (ru_maxrss : Int) else (ru_maxrss : Int) * 1024)
  else 0

/-- The value returned by the `k`-th children-scope `get_max_rss` call of a
run. -/
def sampleAt (w : World) (k : Nat) : Int :=
  get_max_rss w.res_available w.darwin (w.ru k)

/-- The per-iteration memory delta with pre-sample index `kk`:
post-sample minus pre-sample. -/
def dAt (w : World) (kk : Nat) : Int := sampleAt w (kk + 1) - sampleAt w kk

/-- Observable events of a run, in order of occurrence. -/
inductive Event where
  | readClock (t : ℚ)
  | rewriteCmd (args : List String)
  | sampleRss (children : Bool) (v : Int)
  | spawn (i : Nat)
  | printErr (code : Int)
  | unlinkTemp
  | mergeProfile
  | enterHook (h : String)
  | exitHook (h : String)
  | teardown (h : String)
  deriving DecidableEq

def isSampleEv : Event → Bool
  | .sampleRss _ _ => true
  | _ => false

def isSpawnEv : Event → Bool
  | .spawn _ => true
  | _ => false

def isObsEv (e : Event) : Bool := isSampleEv e || isSpawnEv e

def isReadClockEv : Event → Bool
  | .readClock _ => true
  | _ => false

def isRewriteEv : Event → Bool
  | .rewriteCmd _ => true
  | _ => false

def isTeardownEv : Event → Bool
  | .teardown _ => true
  | _ => false

/-- Events the loop body can produce. -/
def loopEvent : Event → Bool
  | .sampleRss _ _ => true
  | .spawn _ => true
  | .printErr _ => true
  | .unlinkTemp => true
  | .mergeProfile => true
  | _ => false

/-- Outcome of the whole benchmark loop. -/
inductive LoopRes where
  | done (maxRss : Int) (fs : FS)
  | exited (code : Int) (fs : FS)
  | unlinkErr (fs : FS)
  | mergeErr (fs : FS)
  deriving DecidableEq

/-- Outcome of one iteration: continue with updated accumulator and file
system, or stop the loop. -/
inductive StepRes where
  | next (maxRss : Int) (fs : FS)
  | stop (res : LoopRes)
  deriving DecidableEq

/-- Effect of the `i`-th spawned child on the file system: a profiled
child (`python -m cProfile -o temp ...`) writes its statistics to the
temporary file, if it gets far enough to produce them. -/
def childWrite (w : World) (profiling : Bool) (i : Nat) (fs : FS) : FS :=
  if profiling then
    match w.childOut i with
    | some s => fsWrite fs w.temp s
    | none => fs
  else fs

/-- The pre/post sample and spawn events of one clean iteration. -/
def iterObs (w : World) (j kk : Nat) : List Event :=
  [Event.sampleRss true (sampleAt w kk), Event.spawn j,
   Event.sampleRss true (sampleAt w (kk + 1))]

/-- One iteration of the loop body of `bench_process`, at child index `i`
with `k` samples already taken: sample children RSS, spawn the child and
wait; on non-zero exit status print it to stderr, unlink the temporary
profile when profiling (raising if it does not exist) and exit with the
child's status; otherwise sample again, fold the delta into the running
maximum and, when profiling, merge the temporary profile into the
cumulative file. -/
def benchStep (w : World) (profiling : Bool) (pp : Path) (i k : Nat)
    (maxRss : Int) (fs : FS) : List Event × StepRes :=
  if w.exitc i = 0 then
    if profiling then
      match merge_profile_stats_files (childWrite w profiling i fs) w.temp pp with
      | some fs2 =>
          (iterObs w i k ++ [Event.mergeProfile],
           StepRes.next (max maxRss (dAt w k)) fs2)
      | none =>
          (iterObs w i k, StepRes.stop (LoopRes.mergeErr (childWrite w profiling i fs)))
    else
      (iterObs w i k, StepRes.next (max maxRss (dAt w k)) (childWrite w profiling i fs))
  else
    if profiling then
      if isfile (childWrite w profiling i fs) w.temp then
        ([Event.sampleRss true (sampleAt w k), Event.spawn i,
          Event.printErr (w.exitc i), Event.unlinkTemp],
         StepRes.stop (LoopRes.exited (w.exitc i)
           (fsErase (childWrite w profiling i fs) w.temp)))
      else
        ([Event.sampleRss true (sampleAt w k), Event.spawn i,
          Event.printErr (w.exitc i)],
         StepRes.stop (LoopRes.unlinkErr (childWrite w profiling i fs)))
    else
      ([Event.sampleRss true (sampleAt w k), Event.spawn i,
        Event.printErr (w.exitc i)],
       StepRes.stop (LoopRes.exited (w.exitc i) (childWrite w profiling i fs)))

/-- The `for _ in range_it` loop of `bench_process`: `r` remaining
iterations, next child index `i`, `k` samples taken so far, running
maximum `maxRss`. -/
def benchIter (w : World) (profiling : Bool) (pp : Path) :
    Nat → Nat → Nat → Int → FS → List Event × LoopRes
  | _, 0, _, maxRss, fs => ([], LoopRes.done maxRss fs)
  | i, r + 1, k, maxRss, fs =>
    match benchStep w profiling pp i k maxRss fs with
    | (evs, StepRes.next m2 fs2) =>
        let rest := benchIter w profiling pp (i + 1) r (k + 2) m2 fs2
        (evs ++ rest.1, rest.2)
    | (evs, StepRes.stop res) => (evs, res)

/-- The profiling command rewrite from the source:
`args = [args[0], "-m", "cProfile", "-o", temp_profile_filename] + args[1:]`. -/
def rewriteArgs (args : List String) (temp : Path) : List String :=
  match args with
  | [] => []
  | a :: rest => a :: "-m" :: "cProfile" :: "-o" :: temp :: rest

/-- The command actually spawned: rewritten when profiling is requested. -/
def effArgs (w : World) (args : List String) (profiling : Bool) : List String :=
  if profiling then rewriteArgs args w.temp else args

/-- Events before the first iteration: the start clock read, then (when
profiling) the creation of the temporary name and the command rewrite. -/
def benchPre (w : World) (profiling : Bool) (args2 : List String) : List Event :=
  Event.readClock (w.clock 0) ::
    (if profiling then [Event.rewriteCmd args2] else [])

/-- Result of `bench_process`: the `(dt, max_rss)` pair on success, or the
abnormal outcome. -/
inductive BRes where
  | ok (dt : ℚ) (maxRss : Int) (fs : FS)
  | exited (code : Int) (fs : FS)
  | unlinkErr (fs : FS)
  | mergeErr (fs : FS)
  deriving DecidableEq

structure BenchOut where
  events : List Event
  res : BRes
  deriving DecidableEq

/-- `bench_process(loops, args, kw, profile_filename)` from the source:
read the start clock, (when profiling) create the temporary name and
rewrite the command, run `range(loops)` iterations, then read the end
clock and return `(end - start, max_rss)`.  The start clock read precedes
the command rewrite, exactly as in the source. -/
def bench_process (w : World) (loops : Int) (args : List String)
    (profile_filename : Option Path) : BenchOut :=
  match benchIter w profile_filename.isSome (profile_filename.getD (""))
      0 loops.toNat 0 0 w.fs0 with
  | (evs, LoopRes.done maxRss fs) =>
      { events := benchPre w profile_filename.isSome
          (effArgs w args profile_filename.isSome) ++ evs ++
            [Event.readClock (w.clock 1)],
        res := BRes.ok (w.clock 1 - w.clock 0) maxRss fs }
  | (evs, LoopRes.exited c fs) =>
      { events := benchPre w profile_filename.isSome
          (effArgs w args profile_filename.isSome) ++ evs,
        res := BRes.exited c fs }
  | (evs, LoopRes.unlinkErr fs) =>
      { events := benchPre w profile_filename.isSome
          (effArgs w args profile_filename.isSome) ++ evs,
        res := BRes.unlinkErr fs }
  | (evs, LoopRes.mergeErr fs) =>
      { events := benchPre w profile_filename.isSome
          (effArgs w args profile_filename.isSome) ++ evs,
        res := BRes.mergeErr fs }

/-- The running maximum after `r` further clean iterations starting from
sample index `k` and accumulator `m`. -/
def peakAcc (w : World) : Nat → Nat → Int → Int
  | 0, _, m => m
  | r + 1, k, m => peakAcc w r (k + 2) (max m (dAt w k))

/-- The sample/spawn events of `r` clean iterations starting at child
index `i` and sample index `k`. -/
def obsAcc (w : World) : Nat → Nat → Nat → List Event
  | 0, _, _ => []
  | r + 1, i, k => iterObs w i k ++ obsAcc w r (i + 1) (k + 2)

/-! ### One-step lemmas for the loop body -/

theorem benchStep_shape (w : World) (prof : Bool) (pp : Path) (i k : Nat)
    (m : Int) (fs : FS) :
    ∀ e ∈ (benchStep w prof pp i k m fs).1, loopEvent e = true := by
  intro e he
  unfold benchStep at he
  repeat' split at he
  all_goals
    cases e <;> first | rfl | (exfalso; simp [iterObs] at he)

theorem benchStep_stop_not_done (w : World) (prof : Bool) (pp : Path) (i k : Nat)
    (m : Int) (fs : FS) {evs : List Event} {res : LoopRes}
    (h : benchStep w prof pp i k m fs = (evs, StepRes.stop res)) :
    ∀ (m2 : Int) (fs2 : FS), ¬ res = LoopRes.done m2 fs2 := by
  intro m2 fs2 hres
  subst hres
  unfold benchStep at h
  repeat' split at h
  all_goals simp at h

theorem benchStep_next (w : World) (prof : Bool) (pp : Path) (i k : Nat)
    (m : Int) (fs : FS) {evs : List Event} {m2 : Int} {fs2 : FS}
    (h : benchStep w prof pp i k m fs = (evs, StepRes.next m2 fs2)) :
    w.exitc i = 0 ∧
    m2 = max m (dAt w k) ∧
    evs.countP isSampleEv = 2 ∧
    evs.filter isObsEv = iterObs w i k := by
  unfold benchStep at h
  repeat' split at h
  all_goals
    try (exfalso; rw [Prod.mk.injEq] at h; exact StepRes.noConfusion h.2)
  all_goals
    rw [Prod.mk.injEq, StepRes.next.injEq] at h
    obtain ⟨hevs, hm2, hfs2⟩ := h
    subst hevs
    subst hm2
    refine ⟨by assumption, rfl, ?_, ?_⟩
  all_goals
    simp [iterObs, isObsEv, isSampleEv, isSpawnEv, List.countP_cons, List.filter]

theorem benchStep_next_exists (w : World) (prof : Bool) (pp : Path) (i k : Nat)
    (m : Int) (fs : FS) (h0 : w.exitc i = 0)
    (hc : prof = true → (w.childOut i).isSome = true) :
    ∃ fs2, benchStep w prof pp i k m fs =
      (iterObs w i k ++ (if prof then [Event.mergeProfile] else []),
       StepRes.next (max m (dAt w k)) fs2) := by
  unfold benchStep
  rw [if_pos h0]
  cases prof with
  | false => exact ⟨childWrite w false i fs, by simp⟩
  | true =>
    obtain ⟨s, hs⟩ := Option.isSome_iff_exists.mp (hc rfl)
    have hlook : fsLookup (childWrite w true i fs) w.temp = some s := by
      simp [childWrite, hs, fsLookup_fsWrite_self]
    obtain ⟨fs2, hm⟩ := merge_of_src_exists hlook
    rw [if_pos rfl, hm]
    exact ⟨fs2, by simp⟩

theorem benchStep_fail (w : World) (prof : Bool) (pp : Path) (i k : Nat)
    (m : Int) (fs : FS) (h0 : ¬ w.exitc i = 0)
    (hc : prof = true → (w.childOut i).isSome = true) :
    ∃ fsE, benchStep w prof pp i k m fs =
      ([Event.sampleRss true (sampleAt w k), Event.spawn i,
        Event.printErr (w.exitc i)] ++ (if prof then [Event.unlinkTemp] else []),
       StepRes.stop (LoopRes.exited (w.exitc i) fsE)) ∧
      (prof = true → isfile fsE w.temp = false) := by
  unfold benchStep
  rw [if_neg h0]
  cases prof with
  | false =>
    exact ⟨childWrite w false i fs, by simp, fun h => absurd h (by decide)⟩
  | true =>
    obtain ⟨s, hs⟩ := Option.isSome_iff_exists.mp (hc rfl)
    have hfile : isfile (childWrite w true i fs) w.temp = true := by
      simp [childWrite, hs, isfile, fsLookup_fsWrite_self]
    rw [if_pos rfl, if_pos hfile]
    exact ⟨fsErase (childWrite w true i fs) w.temp, by simp,
      fun _ => isfile_fsErase_self _ _⟩

/-! ### Loop lemmas -/

theorem benchIter_succ (w : World) (prof : Bool) (pp : Path) (i r k : Nat)
    (m : Int) (fs : FS) :
    benchIter w prof pp i (r + 1) k m fs =
      (match benchStep w prof pp i k m fs with
       | (evs, StepRes.next m2 fs2) =>
           (evs ++ (benchIter w prof pp (i + 1) r (k + 2) m2 fs2).1,
            (benchIter w prof pp (i + 1) r (k + 2) m2 fs2).2)
       | (evs, StepRes.stop res) => (evs, res)) := rfl

theorem benchIter_succ_next (w : World) (prof : Bool) (pp : Path) (i r k : Nat)
    (m : Int) (fs : FS) {evs : List Event} {m2 : Int} {fs2 : FS}
    (hstep : benchStep w prof pp i k m fs = (evs, StepRes.next m2 fs2)) :
    benchIter w prof pp i (r + 1) k m fs =
      (evs ++ (benchIter w prof pp (i + 1) r (k + 2) m2 fs2).1,
       (benchIter w prof pp (i + 1) r (k + 2) m2 fs2).2) := by
  rw [benchIter_succ, hstep]

theorem benchIter_succ_stop (w : World) (prof : Bool) (pp : Path) (i r k : Nat)
    (m : Int) (fs : FS) {evs : List Event} {res : LoopRes}
    (hstep : benchStep w prof pp i k m fs = (evs, StepRes.stop res)) :
    benchIter w prof pp i (r + 1) k m fs = (evs, res) := by
  rw [benchIter_succ, hstep]

theorem benchIter_shape (w : World) (prof : Bool) (pp : Path) :
    ∀ (r i k : Nat) (m : Int) (fs : FS),
      ∀ e ∈ (benchIter w prof pp i r k m fs).1, loopEvent e = true := by
  intro r
  induction r with
  | zero =>
    intro i k m fs e he
    simp [benchIter] at he
  | succ r ih =>
    intro i k m fs e he
    rcases hstep : benchStep w prof pp i k m fs with ⟨evs, sres⟩
    cases sres with
    | next m2 fs2 =>
      rw [benchIter_succ_next w prof pp i r k m fs hstep] at he
      rcases List.mem_append.mp he with h | h
      · refine benchStep_shape w prof pp i k m fs e ?_
        rw [hstep]; exact h
      · exact ih (i + 1) (k + 2) m2 fs2 e h
    | stop res =>
      rw [benchIter_succ_stop w prof pp i r k m fs hstep] at he
      refine benchStep_shape w prof pp i k m fs e ?_
      rw [hstep]; exact he

/-- A completed loop: the accumulator is the running maximum of the
per-iteration deltas, exactly `2r` memory samples are taken, and the
sample/spawn events bracket each iteration. -/
theorem benchIter_done (w : World) (prof : Bool) (pp : Path) :
    ∀ (r i k : Nat) (m : Int) (fs : FS) (mE : Int) (fsE : FS),
      (benchIter w prof pp i r k m fs).2 = LoopRes.done mE fsE →
      mE = peakAcc w r k m ∧
      ((benchIter w prof pp i r k m fs).1).countP isSampleEv = 2 * r ∧
      ((benchIter w prof pp i r k m fs).1).filter isObsEv = obsAcc w r i k := by
  intro r
  induction r with
  | zero =>
    intro i k m fs mE fsE h
    simp only [benchIter] at h ⊢
    rw [LoopRes.done.injEq] at h
    simp [peakAcc, obsAcc, h.1.symm]
  | succ r ih =>
    intro i k m fs mE fsE h
    rcases hstep : benchStep w prof pp i k m fs with ⟨evs, sres⟩
    cases sres with
    | stop res =>
      rw [benchIter_succ_stop w prof pp i r k m fs hstep] at h
      exact absurd h (benchStep_stop_not_done w prof pp i k m fs hstep mE fsE)
    | next m2 fs2 =>
      rw [benchIter_succ_next w prof pp i r k m fs hstep] at h ⊢
      have h' : (benchIter w prof pp (i + 1) r (k + 2) m2 fs2).2 =
          LoopRes.done mE fsE := h
      obtain ⟨hm, hcount, hfilter⟩ := ih (i + 1) (k + 2) m2 fs2 mE fsE h'
      obtain ⟨_, hm2, hcount2, hfilter2⟩ :=
        benchStep_next w prof pp i k m fs hstep
      refine ⟨?_, ?_, ?_⟩
      · show mE = peakAcc w r (k + 2) (max m (dAt w k))
        rw [← hm2]; exact hm
      · show (evs ++ (benchIter w prof pp (i + 1) r (k + 2) m2 fs2).1).countP
            isSampleEv = 2 * (r + 1)
        rw [List.countP_append, hcount2, hcount]
        omega
      · show (evs ++ (benchIter w prof pp (i + 1) r (k + 2) m2 fs2).1).filter
            isObsEv = iterObs w i k ++ obsAcc w r (i + 1) (k + 2)
        rw [List.filter_append, hfilter2, hfilter]

/-- A loop whose first failure is at iteration `j` exits with that child's
status after printing it; with profiling the temporary profile file has
been unlinked from the final file system. -/
theorem benchIter_fail (w : World) (prof : Bool) (pp : Path) :
    ∀ (j r i k : Nat) (m : Int) (fs : FS) (c : Int),
      j < r →
      (∀ t, t < j → w.exitc (i + t) = 0) →
      w.exitc (i + j) = c → ¬ c = 0 →
      (prof = true → ∀ t, t ≤ j → (w.childOut (i + t)).isSome = true) →
      ∃ fsE, (benchIter w prof pp i r k m fs).2 = LoopRes.exited c fsE ∧
        Event.printErr c ∈ (benchIter w prof pp i r k m fs).1 ∧
        (prof = true → isfile fsE w.temp = false) := by
  intro j
  induction j with
  | zero =>
    intro r i k m fs c hjr hclean hfail hc hprof
    obtain ⟨r, rfl⟩ : ∃ r2, r = r2 + 1 := ⟨r - 1, by omega⟩
    have h0 : ¬ w.exitc i = 0 := by
      intro hh
      rw [Nat.add_zero] at hfail
      exact hc (hfail ▸ hh)
    have hcc : prof = true → (w.childOut i).isSome = true := by
      intro hp
      have := hprof hp 0 (Nat.le_refl 0)
      rwa [Nat.add_zero] at this
    obtain ⟨fsE, hstep, hpropE⟩ := benchStep_fail w prof pp i k m fs h0 hcc
    rw [benchIter_succ_stop w prof pp i r k m fs hstep]
    rw [Nat.add_zero] at hfail
    refine ⟨fsE, by rw [hfail], ?_, hpropE⟩
    rw [hfail] at hstep ⊢
    simp
  | succ j ih =>
    intro r i k m fs c hjr hclean hfail hc hprof
    obtain ⟨r, rfl⟩ : ∃ r2, r = r2 + 1 := ⟨r - 1, by omega⟩
    have h0 : w.exitc i = 0 := by
      have := hclean 0 (Nat.succ_pos j)
      rwa [Nat.add_zero] at this
    have hcc : prof = true → (w.childOut i).isSome = true := by
      intro hp
      have := hprof hp 0 (Nat.zero_le _)
      rwa [Nat.add_zero] at this
    obtain ⟨fs2, hstep⟩ := benchStep_next_exists w prof pp i k m fs h0 hcc
    rw [benchIter_succ_next w prof pp i r k m fs hstep]
    have hclean2 : ∀ t, t < j → w.exitc (i + 1 + t) = 0 := by
      intro t ht
      have := hclean (t + 1) (by omega)
      rwa [show i + (t + 1) = i + 1 + t by omega] at this
    have hfail2 : w.exitc (i + 1 + j) = c := by
      rwa [show i + 1 + j = i + (j + 1) by omega]
    have hprof2 : prof = true → ∀ t, t ≤ j → (w.childOut (i + 1 + t)).isSome = true := by
      intro hp t ht
      have := hprof hp (t + 1) (by omega)
      rwa [show i + (t + 1) = i + 1 + t by omega] at this
    have hjr2 : j < r := by omega
    obtain ⟨fsE, h2, hmem, hpropE⟩ :=
      ih r (i + 1) (k + 2) (max m (dAt w k)) fs2 c hjr2 hclean2 hfail2 hc hprof2
    refine ⟨fsE, h2, ?_, hpropE⟩
    exact List.mem_append.mpr (Or.inr hmem)

/-! ### Inversion of `bench_process` and accumulator bridges -/

theorem bench_ok_inv (w : World) (loops : Int) (args : List String)
    (pf : Option Path) {dt : ℚ} {m : Int} {fsE : FS}
    (h : (bench_process w loops args pf).res = BRes.ok dt m fsE) :
    (benchIter w pf.isSome (pf.getD ("")) 0 loops.toNat 0 0 w.fs0).2 =
      LoopRes.done m fsE ∧
    dt = w.clock 1 - w.clock 0 ∧
    (bench_process w loops args pf).events =
      benchPre w pf.isSome (effArgs w args pf.isSome) ++
        (benchIter w pf.isSome (pf.getD ("")) 0 loops.toNat 0 0 w.fs0).1 ++
        [Event.readClock (w.clock 1)] := by
  unfold bench_process at h ⊢
  rcases hbody : benchIter w pf.isSome (pf.getD ("")) 0 loops.toNat 0 0 w.fs0
    with ⟨evs, res⟩
  rw [hbody] at h
  cases res with
  | done mr f =>
    have h2 : BRes.ok (w.clock 1 - w.clock 0) mr f = BRes.ok dt m fsE := h
    rw [BRes.ok.injEq] at h2
    obtain ⟨hdt, hm, hf⟩ := h2
    subst hdt; subst hm; subst hf
    exact ⟨rfl, rfl, rfl⟩
  | exited c f =>
    exact absurd (h : BRes.exited c f = BRes.ok dt m fsE) (by simp)
  | unlinkErr f =>
    exact absurd (h : BRes.unlinkErr f = BRes.ok dt m fsE) (by simp)
  | mergeErr f =>
    exact absurd (h : BRes.mergeErr f = BRes.ok dt m fsE) (by simp)

theorem bench_exited_fwd (w : World) (loops : Int) (args : List String)
    (pf : Option Path) {c : Int} {fsE : FS} {evs : List Event}
    (hbody : benchIter w pf.isSome (pf.getD ("")) 0 loops.toNat 0 0 w.fs0 =
      (evs, LoopRes.exited c fsE)) :
    (bench_process w loops args pf).res = BRes.exited c fsE ∧
    (bench_process w loops args pf).events =
      benchPre w pf.isSome (effArgs w args pf.isSome) ++ evs := by
  unfold bench_process
  rw [hbody]
  exact ⟨rfl, rfl⟩

theorem peakAcc_nonneg (w : World) :
    ∀ (r k : Nat) (m : Int), 0 ≤ m → 0 ≤ peakAcc w r k m := by
  intro r
  induction r with
  | zero => intro k m h; exact h
  | succ r ih =>
    intro k m h
    exact ih (k + 2) (max m (dAt w k)) (le_trans h (le_max_left _ _))

theorem sampleAt_unavailable (w : World) (h : w.res_available = false) (k : Nat) :
    sampleAt w k = 0 := by
  simp [sampleAt, get_max_rss, h]

theorem peakAcc_unavailable (w : World) (h : w.res_available = false) :
    ∀ (r k : Nat) (m : Int), 0 ≤ m → peakAcc w r k m = m := by
  intro r
  induction r with
  | zero => intro k m _; rfl
  | succ r ih =>
    intro k m hm
    show peakAcc w r (k + 2) (max m (dAt w k)) = m
    have hd : dAt w k = 0 := by
      simp [dAt, sampleAt_unavailable w h]
    rw [hd, max_eq_left hm]
    exact ih (k + 2) m hm

/-- The list of per-iteration deltas of `r` iterations starting at sample
index `k`. -/
def deltaList (w : World) : Nat → Nat → List Int
  | 0, _ => []
  | r + 1, k => dAt w k :: deltaList w r (k + 2)

theorem peakAcc_eq_foldl_deltaList (w : World) :
    ∀ (r k : Nat) (m : Int), peakAcc w r k m = (deltaList w r k).foldl max m := by
  intro r
  induction r with
  | zero => intro k m; rfl
  | succ r ih =>
    intro k m
    show peakAcc w r (k + 2) (max m (dAt w k)) = _
    rw [ih (k + 2) (max m (dAt w k))]
    rfl

theorem deltaList_eq_map_range (w : World) :
    ∀ (r k : Nat), deltaList w r k = (List.range r).map (fun t => dAt w (k + 2 * t)) := by
  intro r
  induction r with
  | zero => intro k; rfl
  | succ r ih =>
    intro k
    show dAt w k :: deltaList w r (k + 2) = _
    rw [ih (k + 2), List.range_succ_eq_map, List.map_cons, List.map_map]
    refine congrArg₂ List.cons ?_ ?_
    · show dAt w k = dAt w (k + 2 * 0)
      norm_num
    · refine List.map_congr_left ?_
      intro t _
      show dAt w (k + 2 + 2 * t) = dAt w (k + 2 * Nat.succ t)
      have harith : k + 2 + 2 * t = k + 2 * Nat.succ t := by omega
      rw [harith]

theorem loopEvent_not_clock {e : Event} (h : loopEvent e = true) :
    isReadClockEv e = false := by
  cases e <;> simp_all [loopEvent, isReadClockEv]

theorem loopEvent_not_rewrite {e : Event} (h : loopEvent e = true) :
    isRewriteEv e = false := by
  cases e <;> simp_all [loopEvent, isRewriteEv]

theorem loopEvent_not_teardown {e : Event} (h : loopEvent e = true) :
    isTeardownEv e = false := by
  cases e <;> simp_all [loopEvent, isTeardownEv]

theorem countP_zero_of_shape (p : Event → Bool)
    (hp : ∀ e, loopEvent e = true → p e = false) (l : List Event)
    (hl : ∀ e ∈ l, loopEvent e = true) : l.countP p = 0 :=
  List.countP_eq_zero.mpr (fun e he => by simp [hp e (hl e he)])

theorem benchPre_countP_sample (w : World) (prof : Bool) (args2 : List String) :
    (benchPre w prof args2).countP isSampleEv = 0 := by
  cases prof <;> simp [benchPre, isSampleEv, List.countP_cons]

theorem benchPre_filter_obs (w : World) (prof : Bool) (args2 : List String) :
    (benchPre w prof args2).filter isObsEv = [] := by
  cases prof <;> simp [benchPre, isObsEv, isSampleEv, isSpawnEv, List.filter]

theorem benchPre_countP_clock (w : World) (prof : Bool) (args2 : List String) :
    (benchPre w prof args2).countP isReadClockEv = 1 := by
  cases prof <;> simp [benchPre, isReadClockEv, List.countP_cons]

/-- C8 (confirmed): on every completed run of `n > 0` iterations, exactly
`n` pre/post pairs of children-scope memory samples are taken (`2n` sample
events, one sample/spawn/sample triple bracketing each iteration), and the
resulting peak value is the maximum of the per-iteration deltas
`post - pre`, folded from the initial accumulator `0`. -/
theorem C8_sample_pairs_and_peak (w : World) (loops : Int) (args : List String)
    (pf : Option Path) (n : Nat) (dt : ℚ) (m : Int) (fsE : FS)
    (hn : loops.toNat = n) (hpos : 0 < n)
    (hok : (bench_process w loops args pf).res = BRes.ok dt m fsE) :
    ((bench_process w loops args pf).events).countP isSampleEv = 2 * n ∧
    ((bench_process w loops args pf).events).filter isObsEv = obsAcc w n 0 0 ∧
    m = ((List.range n).map (fun t => dAt w (2 * t))).foldl max 0 := by
  obtain ⟨hdone, _, hevents⟩ := bench_ok_inv w loops args pf hok
  rw [hn] at hdone hevents
  obtain ⟨hm, hcount, hfilter⟩ :=
    benchIter_done w pf.isSome (pf.getD ("")) n 0 0 0 w.fs0 m fsE hdone
  refine ⟨?_, ?_, ?_⟩
  · rw [hevents, List.countP_append, List.countP_append,
      benchPre_countP_sample, hcount]
    simp [isSampleEv, List.countP_cons]
  · rw [hevents, List.filter_append, List.filter_append,
      benchPre_filter_obs, hfilter]
    simp [isObsEv, isSampleEv, isSpawnEv, List.filter]
  · have hmap : (List.range n).map (fun t => dAt w (0 + 2 * t)) =
        (List.range n).map (fun t => dAt w (2 * t)) := by
      refine List.map_congr_left ?_
      intro t _
      have harith : 0 + 2 * t = 2 * t := by omega
      rw [harith]
    rw [hm, peakAcc_eq_foldl_deltaList, deltaList_eq_map_range, hmap]

/-- A concrete environment for the C8 witness: a strictly increasing
peak-RSS counter and two clean iterations. -/
def w8 : World :=
  { res_available := true, darwin := false, ru := fun k => k,
    clock := fun _ => 0, exitc := fun _ => 0,
    childOut := fun _ => none, fs0 := [], temp := "tmpA",
    knownHooks := [], teardownEff := fun _ mm => mm,
    floatRepr := fun _ => "1.0" }

/-- C8 witness: a two-iteration run with a strictly increasing peak-RSS
counter, evaluated concretely. -/
theorem C8_sample_pairs_and_peak_witness :
    ((2 : Int).toNat = 2 ∧ 0 < 2 ∧
      (bench_process w8 2 ["prog"] none).res = BRes.ok ((0 : ℚ) - 0) 1024 []) ∧
    ((bench_process w8 2 ["prog"] none).events).countP isSampleEv = 2 * 2 ∧
    ((bench_process w8 2 ["prog"] none).events).filter isObsEv = obsAcc w8 2 0 0 ∧
    (1024 : Int) = ((List.range 2).map (fun t => dAt w8 (2 * t))).foldl max 0 :=
  ⟨⟨by decide, by decide, rfl⟩,
    C8_sample_pairs_and_peak w8 2 ["prog"] none 2 ((0 : ℚ) - 0) 1024 []
      (by decide) (by decide) rfl⟩

/-- C6 (corrected): on every completed run the wall clock is read exactly
twice — the start read is the very first event and the end read the last —
and the elapsed time is end minus start, a single measurement rather than
a sum of per-iteration times; but when profiling is requested the start
timestamp is recorded BEFORE the step-1 command rewrite (the rewrite is
the second event), not after it as the claim states. -/
theorem C6_two_clock_reads (w : World) (loops : Int) (args : List String)
    (pf : Option Path) (dt : ℚ) (m : Int) (fsE : FS)
    (hok : (bench_process w loops args pf).res = BRes.ok dt m fsE) :
    ((bench_process w loops args pf).events).countP isReadClockEv = 2 ∧
    ((bench_process w loops args pf).events).head? =
      some (Event.readClock (w.clock 0)) ∧
    ((bench_process w loops args pf).events).getLast? =
      some (Event.readClock (w.clock 1)) ∧
    dt = w.clock 1 - w.clock 0 ∧
    (pf.isSome = true →
      ((bench_process w loops args pf).events).get? 1 =
        some (Event.rewriteCmd (rewriteArgs args w.temp))) := by
  obtain ⟨hdone, hdt, hevents⟩ := bench_ok_inv w loops args pf hok
  have hshape := benchIter_shape w pf.isSome (pf.getD ("")) loops.toNat 0 0 0 w.fs0
  refine ⟨?_, ?_, ?_, hdt, ?_⟩
  · rw [hevents, List.countP_append, List.countP_append, benchPre_countP_clock,
      countP_zero_of_shape isReadClockEv (fun e he => loopEvent_not_clock he) _ hshape]
    simp [isReadClockEv, List.countP_cons]
  · rw [hevents]
    simp [benchPre, List.cons_append]
  · rw [hevents]
    exact List.getLast?_concat _
  · intro hp
    rw [hevents, hp]
    simp [benchPre, effArgs, List.cons_append]

/-- A concrete environment used by several evaluations: the resource
facility is available, the peak-RSS counter is constant (zero iteration
deltas), every child exits 0 and writes a one-function profile. -/
def wEx : World :=
  { res_available := true, darwin := false, ru := fun _ => 0,
    clock := fun _ => 0, exitc := fun _ => 0,
    childOut := fun _ => some [("f", ⟨1, 1⟩)], fs0 := [], temp := "tmpA",
    knownHooks := ["h1"], teardownEff := fun _ mm => mm,
    floatRepr := fun _ => "1.0" }

/-- C6 counterexample: on a profiled run the first clock read is event 0
and the step-1 profiling command rewrite is event 1, so the start
timestamp is NOT recorded after the rewrite as the claim states. -/
theorem C6_counterexample :
    (bench_process wEx 1 ["prog"] (some ("prof.out"))).res =
      BRes.ok ((0 : ℚ) - 0) 0 [("prof.out", [("f", (⟨1, 1⟩ : FuncStat))])] ∧
    ((bench_process wEx 1 ["prog"] (some ("prof.out"))).events).findIdx
        isReadClockEv = 0 ∧
    ((bench_process wEx 1 ["prog"] (some ("prof.out"))).events).findIdx
        isRewriteEv = 1 ∧
    ¬ ((bench_process wEx 1 ["prog"] (some ("prof.out"))).events).findIdx
          isRewriteEv <
        ((bench_process wEx 1 ["prog"] (some ("prof.out"))).events).findIdx
          isReadClockEv :=
  ⟨rfl, by decide, by decide, by decide⟩

/-- C6 witness: the amended clock-read facts evaluated on a concrete
profiled run. -/
theorem C6_two_clock_reads_witness :
    ((bench_process wEx 1 ["prog"] (some ("prof.out"))).res =
      BRes.ok ((0 : ℚ) - 0) 0 [("prof.out", [("f", (⟨1, 1⟩ : FuncStat))])]) ∧
    (((bench_process wEx 1 ["prog"] (some ("prof.out"))).events).countP
        isReadClockEv = 2 ∧
      ((bench_process wEx 1 ["prog"] (some ("prof.out"))).events).head? =
        some (Event.readClock (wEx.clock 0)) ∧
      ((bench_process wEx 1 ["prog"] (some ("prof.out"))).events).getLast? =
        some (Event.readClock (wEx.clock 1)) ∧
      (0 : ℚ) - 0 = wEx.clock 1 - wEx.clock 0 ∧
      ((some ("prof.out") : Option Path).isSome = true →
        ((bench_process wEx 1 ["prog"] (some ("prof.out"))).events).get? 1 =
          some (Event.rewriteCmd (rewriteArgs ["prog"] wEx.temp)))) :=
  ⟨rfl, C6_two_clock_reads wEx 1 ["prog"] (some ("prof.out"))
    ((0 : ℚ) - 0) 0 [("prof.out", [("f", (⟨1, 1⟩ : FuncStat))])] rfl⟩

/-- C1 (corrected): the accumulated peak value of a completed run is
always non-negative, and it is `0` whenever the resource facility is
unavailable; the second output line carries the sentinel `-1` exactly when
that accumulated value is `0` — which happens when measurement is
unavailable but ALSO when an available measurement yields a zero peak
delta, so a zero delta is reported as `-1`, not `0`. -/
theorem C1_memory_line (w : World) (loops : Int) (args : List String)
    (pf : Option Path) (dt : ℚ) (m : Int) (fsE : FS) (ds : String)
    (meta : Metadata)
    (hok : (bench_process w loops args pf).res = BRes.ok dt m fsE)
    (hds : noNL ds.data) :
    0 ≤ m ∧
    (w.res_available = false → m = 0) ∧
    (memLine m = -1 ↔ m = 0) ∧
    (linesOf (writeData ds m meta)).get? 1 = some (intChars (memLine m)) := by
  obtain ⟨hdone, _, _⟩ := bench_ok_inv w loops args pf hok
  obtain ⟨hm, _, _⟩ :=
    benchIter_done w pf.isSome (pf.getD ("")) loops.toNat 0 0 0 w.fs0 m fsE hdone
  have hnn : 0 ≤ m := by
    rw [hm]; exact peakAcc_nonneg w _ _ 0 le_rfl
  refine ⟨hnn, ?_, ?_, ?_⟩
  · intro hun
    rw [hm]
    exact peakAcc_unavailable w hun _ _ 0 le_rfl
  · unfold memLine
    by_cases h0 : m = 0
    · simp [h0]
    · rw [if_neg h0]
      constructor
      · intro h1; omega
      · intro h1; exact absurd h1 h0
  · rw [writeData_linesOf ds m meta hds]
    rfl

/-- C1 counterexample: a run with the resource facility available and a
zero peak delta still gets `-1` on the second output line, not `0`. -/
theorem C1_counterexample :
    wEx.res_available = true ∧
    (bench_process wEx 1 ["prog"] none).res = BRes.ok ((0 : ℚ) - 0) 0 [] ∧
    (linesOf (writeData ("1.0") 0 [])).get? 1 = some ['-', '1'] ∧
    ¬ (linesOf (writeData ("1.0") 0 [])).get? 1 = some ['0'] :=
  ⟨rfl, rfl, by decide, by decide⟩

/-- C1 witness: the amended memory-line facts evaluated on a concrete
available-measurement run with zero delta. -/
theorem C1_memory_line_witness :
    ((bench_process wEx 1 ["prog"] none).res = BRes.ok ((0 : ℚ) - 0) 0 [] ∧
      noNL ("1.0").data) ∧
    (0 ≤ (0 : Int) ∧ (wEx.res_available = false → (0 : Int) = 0) ∧
      (memLine 0 = -1 ↔ (0 : Int) = 0) ∧
      (linesOf (writeData ("1.0") 0 [])).get? 1 = some (intChars (memLine 0))) :=
  ⟨⟨rfl, by decide⟩,
    C1_memory_line wEx 1 ["prog"] none ((0 : ℚ) - 0) 0 [] ("1.0") [] rfl (by decide)⟩

/-- C9 (confirmed): in the failure branch with profiling, the deletion of
the temporary profile is unconditional: the loop exits with the child's
status (with the temporary file removed) exactly when the temporary
profile file exists at that moment; when it does not exist, the run
aborts inside cleanup with an unlink error instead of exiting with the
child's status. -/
theorem C9_unlink_precondition (w : World) (pp : Path) (i r k : Nat)
    (m : Int) (fs : FS) (hfail : ¬ w.exitc i = 0) :
    ((benchIter w true pp i (r + 1) k m fs).2 =
        LoopRes.exited (w.exitc i) (fsErase (childWrite w true i fs) w.temp)
      ↔ isfile (childWrite w true i fs) w.temp = true) ∧
    (isfile (childWrite w true i fs) w.temp = false →
      (benchIter w true pp i (r + 1) k m fs).2 =
        LoopRes.unlinkErr (childWrite w true i fs)) ∧
    isfile (fsErase (childWrite w true i fs) w.temp) w.temp = false := by
  by_cases hf : isfile (childWrite w true i fs) w.temp
  · have hstep : benchStep w true pp i k m fs =
        ([Event.sampleRss true (sampleAt w k), Event.spawn i,
          Event.printErr (w.exitc i), Event.unlinkTemp],
         StepRes.stop (LoopRes.exited (w.exitc i)
           (fsErase (childWrite w true i fs) w.temp))) := by
      unfold benchStep
      rw [if_neg hfail, if_pos rfl, if_pos hf]
    rw [benchIter_succ_stop w true pp i r k m fs hstep]
    refine ⟨iff_of_true rfl hf, ?_, isfile_fsErase_self _ _⟩
    intro hcontra
    rw [hf] at hcontra
    exact Bool.noConfusion hcontra
  · have hf2 : isfile (childWrite w true i fs) w.temp = false := by
      simpa using hf
    have hstep : benchStep w true pp i k m fs =
        ([Event.sampleRss true (sampleAt w k), Event.spawn i,
          Event.printErr (w.exitc i)],
         StepRes.stop (LoopRes.unlinkErr (childWrite w true i fs))) := by
      unfold benchStep
      rw [if_neg hfail, if_pos rfl, if_neg hf]
    rw [benchIter_succ_stop w true pp i r k m fs hstep]
    exact ⟨iff_of_false (by simp) (by simp [hf2]), fun _ => rfl,
      isfile_fsErase_self _ _⟩

/-- A failing-child environment for the C9 witness. -/
def w9 : World :=
  { wEx with exitc := fun _ => 7 }

/-- C9 witness: the failure-branch cleanup facts evaluated at a concrete
failing profiled iteration whose child did write the temporary file. -/
theorem C9_unlink_precondition_witness :
    (¬ w9.exitc 0 = 0) ∧
    (((benchIter w9 true ("prof.out") 0 (0 + 1) 0 0 []).2 =
        LoopRes.exited (w9.exitc 0) (fsErase (childWrite w9 true 0 []) w9.temp)
      ↔ isfile (childWrite w9 true 0 []) w9.temp = true) ∧
     (isfile (childWrite w9 true 0 []) w9.temp = false →
        (benchIter w9 true ("prof.out") 0 (0 + 1) 0 0 []).2 =
          LoopRes.unlinkErr (childWrite w9 true 0 [])) ∧
     isfile (fsErase (childWrite w9 true 0 []) w9.temp) w9.temp = false) :=
  ⟨by decide, C9_unlink_precondition w9 ("prof.out") 0 0 0 0 [] (by decide)⟩

/-! ### Argument scanning, hooks and the entry point (`main`) -/

inductive FlagExtract where
  | absent
  | found (value : String) (rest : List String)
  | malformed
  deriving DecidableEq

/-- The source's flag scan:
`idx = argv.index(flag); v = argv[idx+1]; del argv[idx]; del argv[idx]`,
performed only when the flag occurs; `malformed` models the uncaught
IndexError when the flag is the final element. -/
def extractFlag (flag : String) (argv : List String) : FlagExtract :=
  match argv.findIdx? (fun s => s == flag) with
  | none => FlagExtract.absent
  | some i =>
    match (argv.drop (i + 1)).head? with
    | none => FlagExtract.malformed
    | some v => FlagExtract.found v (argv.take i ++ argv.drop (i + 2))

/-- The `while "--hook" in sys.argv` scan of `load_hooks`; the fuel is the
length of the argument list, which bounds the number of extractions since
each one removes two elements. -/
def extractHooks : Nat → List String → Option (List String × List String)
  | 0, argv => some ([], argv)
  | fuel + 1, argv =>
    match extractFlag ("--hook") argv with
    | FlagExtract.absent => some ([], argv)
    | FlagExtract.malformed => none
    | FlagExtract.found v rest =>
      (extractHooks fuel rest).map (fun p => (v :: p.1, p.2))

/-- A Python dict keyed by hook name: the first occurrence of a name wins
its position. -/
def dedupFirst : List String → List String
  | [] => []
  | n :: rest => n :: (dedupFirst rest).filter (fun s => !(s == n))

/-- Modelled from the spec: `pyperf._hooks.instantiate_selected_hooks` is
code of this repository that is not under `src/`.  Per the spec's Hook
Lifecycle Manager contract it resolves each requested hook name to an
instance, fails on unknown names (`HookResolutionError`), and returns a
name-keyed mapping in activation order. -/
def instantiate_selected_hooks (known : List String) (names : List String) :
    Option (List String) :=
  if names.all (fun n => known.contains n) then some (dedupFirst names)
  else none

/-- `", ".join(...)`. -/
def joinComma : List String → String
  | [] => ""
  | [s] => s
  | s :: rest => s ++ ", " ++ joinComma rest

/-- Python dict assignment `metadata[k] = v`: update the existing entry in
place, else append. -/
def metaSet (m : Metadata) (k v : String) : Metadata :=
  if m.any (fun p => p.1 == k) then
    m.map (fun p => if p.1 == k then (k, v) else p)
  else m ++ [(k, v)]

/-- `load_hooks(metadata)` from the source: scan and remove `--hook NAME`
pairs from the argument list; when at least one hook was requested,
resolve the hooks and record the joined hook names under the metadata key
`hooks` — before the benchmark loop runs. -/
def load_hooks (known : List String) (metadata : Metadata)
    (argv : List String) : Option (List String × Metadata × List String) :=
  match extractHooks argv.length argv with
  | none => none
  | some (names, argv2) =>
    if names.isEmpty then some ([], metadata, argv2)
    else
      match instantiate_selected_hooks known names with
      | none => none
      | some managers =>
        some (managers, metaSet metadata ("hooks") (joinComma managers), argv2)

/-- The run configuration assembled by `main`'s argument scanning. -/
structure RunConfig where
  loops : Int
  args : List String
  profile : Option Path
  hooks : List String
  metadata0 : Metadata
  deriving DecidableEq

/-- Value of a decimal digit character. -/
def digVal (c : Char) : Option Nat :=
  if 48 ≤ c.toNat ∧ c.toNat ≤ 57 then some (c.toNat - 48) else none

def parseNatAux : List Char → Nat → Option Nat
  | [], acc => some acc
  | c :: rest, acc =>
    match digVal c with
    | none => none
    | some d => parseNatAux rest (acc * 10 + d)

/-- Python `int(...)` on a plain decimal literal, optionally negative;
`none` models the ValueError on anything else. -/
def pyInt (s : String) : Option Int :=
  match s.data with
  | [] => none
  | '-' :: rest =>
    match rest with
    | [] => none
    | _ => (parseNatAux rest 0).map (fun n => -(n : Int))
  | l => (parseNatAux l 0).map (fun n => (n : Int))

/-- The argument-scanning prefix of `main`: extract `--profile`, then the
hooks (which writes the `hooks` metadata key), then parse the loop count
`int(sys.argv[1])` and take the target command `sys.argv[2:]`; `none`
models the uncaught IndexError / ValueError / HookResolutionError. -/
def parseArgv (known : List String) (argv : List String) : Option RunConfig :=
  match
    (match extractFlag ("--profile") argv with
     | FlagExtract.malformed => none
     | FlagExtract.absent => some ((none : Option Path), argv)
     | FlagExtract.found v rest => some (some v, rest)) with
  | none => none
  | some (pf, argv1) =>
    match load_hooks known [] argv1 with
    | none => none
    | some (hooks, metadata, argv2) =>
      match (argv2.drop 1).head? with
      | none => none
      | some ls =>
        match pyInt ls with
        | none => none
        | some loops => some ⟨loops, argv2.drop 2, pf, hooks, metadata⟩

/-- Result of a `main` run. -/
inductive MainRes where
  | usageError
  | argError
  | exited (code : Int)
  | unlinkError
  | mergeError
  | ok (output : List Char)
  deriving DecidableEq

/-- Observable outcome of a `main` run: the event trace, the metadata
mapping at the moment the benchmark loop starts, the final metadata
mapping, the final file system, the resolved hooks and the result. -/
structure MainOut where
  events : List Event
  metaBeforeLoop : Metadata
  metaFinal : Metadata
  fs : FS
  hooks : List String
  res : MainRes

def usageOut (w : World) : MainOut :=
  ⟨[], [], [], w.fs0, [], MainRes.usageError⟩

def argErrOut (w : World) : MainOut :=
  ⟨[], [], [], w.fs0, [], MainRes.argError⟩

/-- The post-parsing body of `main`: enter all hooks (`ExitStack`), run
`bench_process`, deactivate the hooks in reverse activation order on every
exit path — including the `sys.exit` raised on a failed child, which then
skips everything after the `with` block — and only on normal completion
invoke each hook's `teardown(metadata)` in activation order and emit the
result with `write_data`. -/
def pymainCore (w : World) (cfg : RunConfig) : MainOut :=
  match bench_process w cfg.loops cfg.args cfg.profile with
  | ⟨bevs, BRes.ok dt maxRss fs⟩ =>
    { events := cfg.hooks.map Event.enterHook ++ bevs ++
        cfg.hooks.reverse.map Event.exitHook ++ cfg.hooks.map Event.teardown,
      metaBeforeLoop := cfg.metadata0,
      metaFinal := cfg.hooks.foldl (fun mm h => w.teardownEff h mm) cfg.metadata0,
      fs := fs, hooks := cfg.hooks,
      res := MainRes.ok (writeData (w.floatRepr dt) maxRss
        (cfg.hooks.foldl (fun mm h => w.teardownEff h mm) cfg.metadata0)) }
  | ⟨bevs, BRes.exited c fs⟩ =>
    { events := cfg.hooks.map Event.enterHook ++ bevs ++
        cfg.hooks.reverse.map Event.exitHook,
      metaBeforeLoop := cfg.metadata0, metaFinal := cfg.metadata0,
      fs := fs, hooks := cfg.hooks, res := MainRes.exited c }
  | ⟨bevs, BRes.unlinkErr fs⟩ =>
    { events := cfg.hooks.map Event.enterHook ++ bevs ++
        cfg.hooks.reverse.map Event.exitHook,
      metaBeforeLoop := cfg.metadata0, metaFinal := cfg.metadata0,
      fs := fs, hooks := cfg.hooks, res := MainRes.unlinkError }
  | ⟨bevs, BRes.mergeErr fs⟩ =>
    { events := cfg.hooks.map Event.enterHook ++ bevs ++
        cfg.hooks.reverse.map Event.exitHook,
      metaBeforeLoop := cfg.metadata0, metaFinal := cfg.metadata0,
      fs := fs, hooks := cfg.hooks, res := MainRes.mergeError }

/-- `main()` from the source, after the nested-module guard: the usage
check on the raw argument count, then argument scanning, then the
orchestrated run. -/
def pymain (w : World) (argv : List String) : MainOut :=
  if argv.length < 3 then usageOut w
  else
    match parseArgv w.knownHooks argv with
    | none => argErrOut w
    | some cfg => pymainCore w cfg

/-! ### Lemmas about the entry point -/

theorem pymain_parsed (w : World) (argv : List String) (cfg : RunConfig)
    (hlen : ¬ argv.length < 3) (hp : parseArgv w.knownHooks argv = some cfg) :
    pymain w argv = pymainCore w cfg := by
  unfold pymain
  rw [if_neg hlen, hp]

theorem pymainCore_ok (w : World) (cfg : RunConfig) {bevs : List Event}
    {dt : ℚ} {maxRss : Int} {fs : FS}
    (hb : bench_process w cfg.loops cfg.args cfg.profile =
      ⟨bevs, BRes.ok dt maxRss fs⟩) :
    pymainCore w cfg =
      { events := cfg.hooks.map Event.enterHook ++ bevs ++
          cfg.hooks.reverse.map Event.exitHook ++ cfg.hooks.map Event.teardown,
        metaBeforeLoop := cfg.metadata0,
        metaFinal := cfg.hooks.foldl (fun mm h => w.teardownEff h mm) cfg.metadata0,
        fs := fs, hooks := cfg.hooks,
        res := MainRes.ok (writeData (w.floatRepr dt) maxRss
          (cfg.hooks.foldl (fun mm h => w.teardownEff h mm) cfg.metadata0)) } := by
  unfold pymainCore
  rw [hb]

theorem pymainCore_exited (w : World) (cfg : RunConfig) {bevs : List Event}
    {c : Int} {fs : FS}
    (hb : bench_process w cfg.loops cfg.args cfg.profile =
      ⟨bevs, BRes.exited c fs⟩) :
    pymainCore w cfg =
      { events := cfg.hooks.map Event.enterHook ++ bevs ++
          cfg.hooks.reverse.map Event.exitHook,
        metaBeforeLoop := cfg.metadata0, metaFinal := cfg.metadata0,
        fs := fs, hooks := cfg.hooks, res := MainRes.exited c } := by
  unfold pymainCore
  rw [hb]

theorem bench_exited_eq (w : World) (loops : Int) (args : List String)
    (pf : Option Path) {c : Int} {fsE : FS} {evs : List Event}
    (hbody : benchIter w pf.isSome (pf.getD ("")) 0 loops.toNat 0 0 w.fs0 =
      (evs, LoopRes.exited c fsE)) :
    bench_process w loops args pf =
      ⟨benchPre w pf.isSome (effArgs w args pf.isSome) ++ evs,
       BRes.exited c fsE⟩ := by
  unfold bench_process
  rw [hbody]

theorem bench_done_eq (w : World) (loops : Int) (args : List String)
    (pf : Option Path) {mE : Int} {fsE : FS} {evs : List Event}
    (hbody : benchIter w pf.isSome (pf.getD ("")) 0 loops.toNat 0 0 w.fs0 =
      (evs, LoopRes.done mE fsE)) :
    bench_process w loops args pf =
      ⟨benchPre w pf.isSome (effArgs w args pf.isSome) ++ evs ++
        [Event.readClock (w.clock 1)],
       BRes.ok (w.clock 1 - w.clock 0) mE fsE⟩ := by
  unfold bench_process
  rw [hbody]

/-- Hook lifecycle events, produced only by the `main` orchestration,
never by the benchmark loop. -/
def hookEvent : Event → Bool
  | .enterHook _ => true
  | .exitHook _ => true
  | .teardown _ => true
  | _ => false

theorem loopEvent_not_hookEvent {e : Event} (h : loopEvent e = true) :
    hookEvent e = false := by
  cases e <;> simp_all [loopEvent, hookEvent]

theorem hookEvent_false_not_teardown {e : Event} (h : hookEvent e = false) :
    isTeardownEv e = false := by
  cases e <;> simp_all [hookEvent, isTeardownEv]

theorem benchPre_no_hookEvent (w : World) (prof : Bool) (args2 : List String) :
    ∀ e ∈ benchPre w prof args2, hookEvent e = false := by
  intro e he
  cases prof <;> simp [benchPre] at he
  · subst he; rfl
  · rcases he with rfl | rfl <;> rfl

theorem bench_events_no_hookEvent (w : World) (loops : Int)
    (args : List String) (pf : Option Path) :
    ∀ e ∈ (bench_process w loops args pf).events, hookEvent e = false := by
  intro e he
  unfold bench_process at he
  rcases hbody : benchIter w pf.isSome (pf.getD ("")) 0 loops.toNat 0 0 w.fs0
    with ⟨evs, res⟩
  rw [hbody] at he
  have hloop : ∀ x ∈ evs, loopEvent x = true := by
    intro x hx
    refine benchIter_shape w pf.isSome (pf.getD ("")) loops.toNat 0 0 0 w.fs0 x ?_
    rw [hbody]; exact hx
  cases res with
  | done mr f =>
    have he2 : e ∈ benchPre w pf.isSome (effArgs w args pf.isSome) ++ evs ++
        [Event.readClock (w.clock 1)] := he
    rcases List.mem_append.mp he2 with h | h
    · rcases List.mem_append.mp h with h1 | h1
      · exact benchPre_no_hookEvent w pf.isSome _ e h1
      · exact loopEvent_not_hookEvent (hloop e h1)
    · rcases List.mem_cons.mp h with h1 | h1
      · subst h1; rfl
      · simp at h1
  | exited c f =>
    have he2 : e ∈ benchPre w pf.isSome (effArgs w args pf.isSome) ++ evs := he
    rcases List.mem_append.mp he2 with h | h
    · exact benchPre_no_hookEvent w pf.isSome _ e h
    · exact loopEvent_not_hookEvent (hloop e h)
  | unlinkErr f =>
    have he2 : e ∈ benchPre w pf.isSome (effArgs w args pf.isSome) ++ evs := he
    rcases List.mem_append.mp he2 with h | h
    · exact benchPre_no_hookEvent w pf.isSome _ e h
    · exact loopEvent_not_hookEvent (hloop e h)
  | mergeErr f =>
    have he2 : e ∈ benchPre w pf.isSome (effArgs w args pf.isSome) ++ evs := he
    rcases List.mem_append.mp he2 with h | h
    · exact benchPre_no_hookEvent w pf.isSome _ e h
    · exact loopEvent_not_hookEvent (hloop e h)

theorem filter_map_eq_nil (p : Event → Bool) (f : String → Event)
    (hf : ∀ s, p (f s) = false) (hs : List String) :
    (hs.map f).filter p = [] := by
  refine List.filter_eq_nil.mpr ?_
  intro a ha
  rcases List.mem_map.mp ha with ⟨s, _, rfl⟩
  simp [hf s]

theorem countP_map_zero (p : Event → Bool) (f : String → Event)
    (hf : ∀ s, p (f s) = false) (hs : List String) :
    (hs.map f).countP p = 0 := by
  refine List.countP_eq_zero.mpr ?_
  intro a ha
  rcases List.mem_map.mp ha with ⟨s, _, rfl⟩
  simp [hf s]

theorem filter_teardown_map_teardown (hs : List String) :
    (hs.map Event.teardown).filter isTeardownEv = hs.map Event.teardown := by
  refine List.filter_eq_self.mpr ?_
  intro a ha
  rcases List.mem_map.mp ha with ⟨s, _, rfl⟩
  rfl

theorem filter_teardown_of_no_hookEvent {l : List Event}
    (h : ∀ e ∈ l, hookEvent e = false) : l.filter isTeardownEv = [] := by
  refine List.filter_eq_nil.mpr ?_
  intro a ha
  simp [hookEvent_false_not_teardown (h a ha)]

/-! ### Parsing lemmas for the metadata claims -/

theorem instantiate_ne_nil {known names mans : List String}
    (h : instantiate_selected_hooks known names = some mans)
    (hne : ¬ names = []) : ¬ mans = [] := by
  unfold instantiate_selected_hooks at h
  split at h
  · rw [Option.some.injEq] at h
    subst h
    cases names with
    | nil => exact absurd rfl hne
    | cons n rest => simp [dedupFirst]
  · exact absurd h (by simp)

theorem load_hooks_metadata {known : List String} {m0 : Metadata}
    {argv : List String} {hooks : List String} {m : Metadata}
    {argv2 : List String}
    (h : load_hooks known m0 argv = some (hooks, m, argv2)) :
    (hooks = [] → m = m0) ∧
    (¬ hooks = [] → m = metaSet m0 ("hooks") (joinComma hooks)) := by
  unfold load_hooks at h
  split at h
  · exact Option.noConfusion h
  · rename_i names argv2x hext
    split at h
    · rw [Option.some.injEq, Prod.mk.injEq] at h
      obtain ⟨hh, h2⟩ := h
      rw [Prod.mk.injEq] at h2
      subst hh
      exact ⟨fun _ => h2.1.symm, fun hne2 => absurd rfl hne2⟩
    · rename_i hempty
      split at h
      · exact Option.noConfusion h
      · rename_i mans hinst
        rw [Option.some.injEq, Prod.mk.injEq] at h
        obtain ⟨hh, h2⟩ := h
        rw [Prod.mk.injEq] at h2
        subst hh
        have hne2 : ¬ names = [] := by
          intro hnil
          subst hnil
          simp at hempty
        exact ⟨fun h0 => absurd h0 (instantiate_ne_nil hinst hne2),
          fun _ => h2.1.symm⟩

theorem parseArgv_metadata {known : List String} {argv : List String}
    {cfg : RunConfig} (hp : parseArgv known argv = some cfg) :
    (cfg.hooks = [] → cfg.metadata0 = []) ∧
    (¬ cfg.hooks = [] →
      cfg.metadata0 = metaSet [] ("hooks") (joinComma cfg.hooks)) := by
  unfold parseArgv at hp
  split at hp
  · exact Option.noConfusion hp
  · rename_i pf argv1 hpf
    split at hp
    · exact Option.noConfusion hp
    · rename_i hooks metadata argv2 hload
      split at hp
      · exact Option.noConfusion hp
      · rename_i ls hls
        split at hp
        · exact Option.noConfusion hp
        · rename_i loops hloops
          rw [Option.some.injEq] at hp
          subst hp
          exact load_hooks_metadata hload

theorem pymainCore_unlinkErr (w : World) (cfg : RunConfig) {bevs : List Event}
    {fs : FS}
    (hb : bench_process w cfg.loops cfg.args cfg.profile =
      ⟨bevs, BRes.unlinkErr fs⟩) :
    pymainCore w cfg =
      { events := cfg.hooks.map Event.enterHook ++ bevs ++
          cfg.hooks.reverse.map Event.exitHook,
        metaBeforeLoop := cfg.metadata0, metaFinal := cfg.metadata0,
        fs := fs, hooks := cfg.hooks, res := MainRes.unlinkError } := by
  unfold pymainCore
  rw [hb]

theorem pymainCore_mergeErr (w : World) (cfg : RunConfig) {bevs : List Event}
    {fs : FS}
    (hb : bench_process w cfg.loops cfg.args cfg.profile =
      ⟨bevs, BRes.mergeErr fs⟩) :
    pymainCore w cfg =
      { events := cfg.hooks.map Event.enterHook ++ bevs ++
          cfg.hooks.reverse.map Event.exitHook,
        metaBeforeLoop := cfg.metadata0, metaFinal := cfg.metadata0,
        fs := fs, hooks := cfg.hooks, res := MainRes.mergeError } := by
  unfold pymainCore
  rw [hb]

theorem benchPre_filter_spawn (w : World) (prof : Bool) (args2 : List String) :
    (benchPre w prof args2).filter isSpawnEv = [] := by
  cases prof <;> simp [benchPre, isSpawnEv, List.filter]

/-- C2 (corrected): when a run completes normally, `teardown(metadata)` is
invoked exactly once per resolved hook, in activation order, after every
hook has been deactivated; but when a benchmarked child exits with
non-zero status, the hooks are deactivated (the scoped activation unwinds
on the `sys.exit`) and teardown is NOT invoked at all — the claim's
"including when a child exits non-zero" case fails. -/
theorem C2_teardown_per_hook (w : World) (argv : List String) :
    (∀ o, (pymain w argv).res = MainRes.ok o →
      ((pymain w argv).events).filter isTeardownEv =
        (pymain w argv).hooks.map Event.teardown ∧
      ∃ v, (pymain w argv).events =
        (pymain w argv).hooks.map Event.enterHook ++ v ++
          (pymain w argv).hooks.reverse.map Event.exitHook ++
          (pymain w argv).hooks.map Event.teardown) ∧
    (∀ c, (pymain w argv).res = MainRes.exited c →
      ((pymain w argv).events).filter isTeardownEv = [] ∧
      ∃ v, (pymain w argv).events =
        (pymain w argv).hooks.map Event.enterHook ++ v ++
          (pymain w argv).hooks.reverse.map Event.exitHook) := by
  by_cases hlen : argv.length < 3
  · have hpy : pymain w argv = usageOut w := by
      unfold pymain; rw [if_pos hlen]
    rw [hpy]
    constructor
    · intro o h; exact absurd h (by simp [usageOut])
    · intro c h; exact absurd h (by simp [usageOut])
  · rcases hp : parseArgv w.knownHooks argv with _ | cfg
    · have hpy : pymain w argv = argErrOut w := by
        unfold pymain; rw [if_neg hlen, hp]
      rw [hpy]
      constructor
      · intro o h; exact absurd h (by simp [argErrOut])
      · intro c h; exact absurd h (by simp [argErrOut])
    · rw [pymain_parsed w argv cfg hlen hp]
      rcases hb : bench_process w cfg.loops cfg.args cfg.profile with ⟨bevs, bres⟩
      have hbev : ∀ e ∈ bevs, hookEvent e = false := by
        intro e he
        refine bench_events_no_hookEvent w cfg.loops cfg.args cfg.profile e ?_
        rw [hb]; exact he
      cases bres with
      | ok dt maxRss fs =>
        rw [pymainCore_ok w cfg hb]
        constructor
        · intro o _
          constructor
          · simp only [List.filter_append]
            rw [filter_map_eq_nil isTeardownEv Event.enterHook (fun s => rfl),
              filter_map_eq_nil isTeardownEv Event.exitHook (fun s => rfl),
              filter_teardown_of_no_hookEvent hbev,
              filter_teardown_map_teardown]
            simp
          · exact ⟨bevs, rfl⟩
        · intro c h
          exact absurd h (by simp)
      | exited c fs =>
        rw [pymainCore_exited w cfg hb]
        constructor
        · intro o h
          exact absurd h (by simp)
        · intro c2 _
          constructor
          · simp only [List.filter_append]
            rw [filter_map_eq_nil isTeardownEv Event.enterHook (fun s => rfl),
              filter_map_eq_nil isTeardownEv Event.exitHook (fun s => rfl),
              filter_teardown_of_no_hookEvent hbev]
            simp
          · exact ⟨bevs, rfl⟩
      | unlinkErr fs =>
        rw [pymainCore_unlinkErr w cfg hb]
        constructor
        · intro o h; exact absurd h (by simp)
        · intro c h; exact absurd h (by simp)
      | mergeErr fs =>
        rw [pymainCore_mergeErr w cfg hb]
        constructor
        · intro o h; exact absurd h (by simp)
        · intro c h; exact absurd h (by simp)

/-- A world whose children all fail with status 5. -/
def wC2 : World := { wEx with exitc := fun _ => 5 }

/-- C2 counterexample: with one resolved hook and a child that fails on the
first of two iterations, the harness exits with the child's status and the
trace contains NO teardown event — teardown is not invoked once per hook
as claimed for failing runs. -/
theorem C2_counterexample :
    (pymain wC2 ["s", "--hook", "h1", "2", "prog"]).hooks = ["h1"] ∧
    (pymain wC2 ["s", "--hook", "h1", "2", "prog"]).res = MainRes.exited 5 ∧
    ((pymain wC2 ["s", "--hook", "h1", "2", "prog"]).events).filter
      isTeardownEv = [] ∧
    ¬ ((pymain wC2 ["s", "--hook", "h1", "2", "prog"]).events).filter
        isTeardownEv =
      (pymain wC2 ["s", "--hook", "h1", "2", "prog"]).hooks.map Event.teardown :=
  ⟨by decide, by decide, by decide, by decide⟩

/-- C2 witness: the amended failing-run behaviour evaluated concretely —
the run exits with the child's status and no teardown event occurs. -/
theorem C2_teardown_per_hook_witness :
    (pymain wC2 ["s", "--hook", "h1", "2", "prog"]).res = MainRes.exited 5 ∧
    ((pymain wC2 ["s", "--hook", "h1", "2", "prog"]).events).filter
      isTeardownEv = [] :=
  ⟨by decide,
    ((C2_teardown_per_hook wC2 ["s", "--hook", "h1", "2", "prog"]).2 5
      (by decide)).1⟩

/-- C3 (corrected): the metadata mapping is written BEFORE the benchmark
loop by hook loading, which stores the joined hook names under the
`hooks` key whenever at least one hook is requested; nothing during the
loop writes metadata, and after the loop only hook teardown (run before
emission, only on normal completion) updates it. -/
theorem C3_metadata_phases (w : World) (argv : List String) :
    ((pymain w argv).hooks = [] → (pymain w argv).metaBeforeLoop = []) ∧
    (¬ (pymain w argv).hooks = [] →
      (pymain w argv).metaBeforeLoop =
        metaSet [] ("hooks") (joinComma ((pymain w argv).hooks))) ∧
    (∀ o, (pymain w argv).res = MainRes.ok o →
      (pymain w argv).metaFinal =
        ((pymain w argv).hooks).foldl (fun mm h => w.teardownEff h mm)
          ((pymain w argv).metaBeforeLoop)) ∧
    (∀ c, (pymain w argv).res = MainRes.exited c →
      (pymain w argv).metaFinal = (pymain w argv).metaBeforeLoop) := by
  by_cases hlen : argv.length < 3
  · have hpy : pymain w argv = usageOut w := by
      unfold pymain; rw [if_pos hlen]
    rw [hpy]
    refine ⟨fun _ => rfl, fun hne => absurd rfl hne, ?_, ?_⟩
    · intro o h; exact absurd h (by simp [usageOut])
    · intro c h; exact absurd h (by simp [usageOut])
  · rcases hp : parseArgv w.knownHooks argv with _ | cfg
    · have hpy : pymain w argv = argErrOut w := by
        unfold pymain; rw [if_neg hlen, hp]
      rw [hpy]
      refine ⟨fun _ => rfl, fun hne => absurd rfl hne, ?_, ?_⟩
      · intro o h; exact absurd h (by simp [argErrOut])
      · intro c h; exact absurd h (by simp [argErrOut])
    · rw [pymain_parsed w argv cfg hlen hp]
      obtain ⟨hmeta1, hmeta2⟩ := parseArgv_metadata hp
      rcases hb : bench_process w cfg.loops cfg.args cfg.profile with ⟨bevs, bres⟩
      cases bres with
      | ok dt maxRss fs =>
        rw [pymainCore_ok w cfg hb]
        refine ⟨hmeta1, hmeta2, ?_, ?_⟩
        · intro o _; rfl
        · intro c h; exact absurd h (by simp)
      | exited c fs =>
        rw [pymainCore_exited w cfg hb]
        refine ⟨hmeta1, hmeta2, ?_, ?_⟩
        · intro o h; exact absurd h (by simp)
        · intro c2 _; rfl
      | unlinkErr fs =>
        rw [pymainCore_unlinkErr w cfg hb]
        refine ⟨hmeta1, hmeta2, ?_, ?_⟩
        · intro o h; exact absurd h (by simp)
        · intro c h; exact absurd h (by simp)
      | mergeErr fs =>
        rw [pymainCore_mergeErr w cfg hb]
        refine ⟨hmeta1, hmeta2, ?_, ?_⟩
        · intro o h; exact absurd h (by simp)
        · intro c h; exact absurd h (by simp)

/-- C3 counterexample: with one requested hook, the metadata mapping
already holds the `hooks` key when the benchmark loop starts — an
operation before the loop (hook loading) writes into it, refuting the
claim that only teardown writes metadata. -/
theorem C3_counterexample :
    (pymain wEx ["s", "--hook", "h1", "1", "prog"]).metaBeforeLoop =
      [("hooks", "h1")] ∧
    ¬ (pymain wEx ["s", "--hook", "h1", "1", "prog"]).metaBeforeLoop = [] :=
  ⟨by decide, by decide⟩

/-- C3 witness: the amended metadata phases evaluated on a concrete run
with one hook. -/
theorem C3_metadata_phases_witness :
    (pymain wEx ["s", "--hook", "h1", "1", "prog"]).metaBeforeLoop =
      metaSet [] ("hooks")
        (joinComma ((pymain wEx ["s", "--hook", "h1", "1", "prog"]).hooks)) :=
  (C3_metadata_phases wEx ["s", "--hook", "h1", "1", "prog"]).2.1 (by decide)

/-- C5 (confirmed): when the child of iteration `j` exits with a non-zero
status `c` (all earlier children exiting 0, and — when profiling — every
child up to `j` having produced the temporary profile file), the harness
prints the failing status to the error stream, deletes the temporary
profile file when profiling was requested, terminates with exit status
`c`, and emits nothing on its result stream. -/
theorem C5_child_failure (w : World) (argv : List String) (cfg : RunConfig)
    (j : Nat) (c : Int)
    (hlen : ¬ argv.length < 3)
    (hp : parseArgv w.knownHooks argv = some cfg)
    (hj : (j : Int) < cfg.loops)
    (hclean : ∀ t, t < j → w.exitc t = 0)
    (hfail : w.exitc j = c) (hc : ¬ c = 0)
    (hprof : cfg.profile.isSome = true →
      ∀ t, t ≤ j → (w.childOut t).isSome = true) :
    (pymain w argv).res = MainRes.exited c ∧
    Event.printErr c ∈ (pymain w argv).events ∧
    (cfg.profile.isSome = true → isfile ((pymain w argv).fs) w.temp = false) ∧
    ∀ o, ¬ (pymain w argv).res = MainRes.ok o := by
  have hjr : j < cfg.loops.toNat := by omega
  have hclean2 : ∀ t, t < j → w.exitc (0 + t) = 0 := by
    intro t ht
    rw [Nat.zero_add]
    exact hclean t ht
  have hfail2 : w.exitc (0 + j) = c := by
    rw [Nat.zero_add]; exact hfail
  have hprof2 : cfg.profile.isSome = true →
      ∀ t, t ≤ j → (w.childOut (0 + t)).isSome = true := by
    intro hpp t ht
    rw [Nat.zero_add]
    exact hprof hpp t ht
  obtain ⟨fsE, hres, hmem, hfsE⟩ :=
    benchIter_fail w cfg.profile.isSome (cfg.profile.getD ("")) j
      cfg.loops.toNat 0 0 0 w.fs0 c hjr hclean2 hfail2 hc hprof2
  rcases hbody : benchIter w cfg.profile.isSome (cfg.profile.getD ("")) 0
      cfg.loops.toNat 0 0 w.fs0 with ⟨evs, res⟩
  rw [hbody] at hres hmem
  have hres2 : res = LoopRes.exited c fsE := hres
  subst hres2
  have hb := bench_exited_eq w cfg.loops cfg.args cfg.profile hbody
  rw [pymain_parsed w argv cfg hlen hp, pymainCore_exited w cfg hb]
  refine ⟨rfl, ?_, ?_, ?_⟩
  · have hmem2 : Event.printErr c ∈ evs := hmem
    refine List.mem_append.mpr (Or.inl ?_)
    refine List.mem_append.mpr (Or.inr ?_)
    exact List.mem_append.mpr (Or.inr hmem2)
  · intro hpp
    exact hfsE hpp
  · intro o h
    exact absurd h (by simp)

/-- A world whose first child exits 0 and whose second child fails with
status 7. -/
def w5 : World := { wEx with exitc := fun i => if i = 0 then 0 else 7 }

/-- C5 witness: a harness run of three iterations whose second child fails
with status 7, evaluated concretely. -/
theorem C5_child_failure_witness :
    (parseArgv w5.knownHooks ["s", "3", "prog"] =
        some ⟨3, ["prog"], none, [], []⟩ ∧
      ((1 : Nat) : Int) < 3 ∧ w5.exitc 1 = 7 ∧ ¬ (7 : Int) = 0) ∧
    ((pymain w5 ["s", "3", "prog"]).res = MainRes.exited 7 ∧
      Event.printErr 7 ∈ (pymain w5 ["s", "3", "prog"]).events ∧
      (((⟨3, ["prog"], none, [], []⟩ : RunConfig).profile).isSome = true →
        isfile ((pymain w5 ["s", "3", "prog"]).fs) w5.temp = false) ∧
      ∀ o, ¬ (pymain w5 ["s", "3", "prog"]).res = MainRes.ok o) :=
  ⟨⟨by decide, by decide, by decide, by decide⟩,
    C5_child_failure w5 ["s", "3", "prog"] ⟨3, ["prog"], none, [], []⟩ 1 7
      (by decide) (by decide) (by decide)
      (by
        intro t ht
        have h0 : t = 0 := by omega
        subst h0
        decide)
      (by decide) (by decide)
      (fun h => absurd h (by decide))⟩

/-- C10 (confirmed): the harness never validates that the loop count is
positive — on any invocation that parses with loop count `n ≤ 0`, the
loop body runs zero times (no child spawned, no memory sample taken) and
a three-line result is still emitted, with elapsed time `end - start`
(the two clock reads happen back to back) and `-1` on the memory line. -/
theorem C10_nonpositive_loops (w : World) (argv : List String)
    (cfg : RunConfig)
    (hlen : ¬ argv.length < 3)
    (hp : parseArgv w.knownHooks argv = some cfg)
    (hneg : cfg.loops ≤ 0)
    (hds : noNL (w.floatRepr (w.clock 1 - w.clock 0)).data) :
    ((pymain w argv).events).filter isSpawnEv = [] ∧
    ((pymain w argv).events).countP isSampleEv = 0 ∧
    (pymain w argv).res =
      MainRes.ok (writeData (w.floatRepr (w.clock 1 - w.clock 0)) 0
        ((pymain w argv).metaFinal)) ∧
    linesOf (writeData (w.floatRepr (w.clock 1 - w.clock 0)) 0
        ((pymain w argv).metaFinal)) =
      [(w.floatRepr (w.clock 1 - w.clock 0)).data, ['-', '1'],
       jsonEncodeMeta ((pymain w argv).metaFinal), []] := by
  have h0 : cfg.loops.toNat = 0 := by omega
  have hbody : benchIter w cfg.profile.isSome (cfg.profile.getD ("")) 0
      cfg.loops.toNat 0 0 w.fs0 = ([], LoopRes.done 0 w.fs0) := by
    rw [h0]
    rfl
  have hb := bench_done_eq w cfg.loops cfg.args cfg.profile hbody
  rw [pymain_parsed w argv cfg hlen hp, pymainCore_ok w cfg hb]
  refine ⟨?_, ?_, rfl, ?_⟩
  · simp only [List.filter_append]
    rw [filter_map_eq_nil isSpawnEv Event.enterHook (fun s => rfl),
      filter_map_eq_nil isSpawnEv Event.exitHook (fun s => rfl),
      filter_map_eq_nil isSpawnEv Event.teardown (fun s => rfl),
      benchPre_filter_spawn]
    simp [isSpawnEv, List.filter]
  · simp only [List.countP_append]
    rw [countP_map_zero isSampleEv Event.enterHook (fun s => rfl),
      countP_map_zero isSampleEv Event.exitHook (fun s => rfl),
      countP_map_zero isSampleEv Event.teardown (fun s => rfl),
      benchPre_countP_sample]
    simp [isSampleEv, List.countP_cons]
  · rw [writeData_linesOf _ _ _ hds]
    rfl

/-- C10 witness: an invocation with loop count `0`, evaluated concretely:
no child is spawned and the three-line result carries `-1`. -/
theorem C10_nonpositive_loops_witness :
    (parseArgv wEx.knownHooks ["s", "0", "prog"] =
        some ⟨0, ["prog"], none, [], []⟩ ∧
      ((⟨0, ["prog"], none, [], []⟩ : RunConfig).loops ≤ 0) ∧
      noNL (wEx.floatRepr (wEx.clock 1 - wEx.clock 0)).data) ∧
    (((pymain wEx ["s", "0", "prog"]).events).filter isSpawnEv = [] ∧
      ((pymain wEx ["s", "0", "prog"]).events).countP isSampleEv = 0 ∧
      (pymain wEx ["s", "0", "prog"]).res =
        MainRes.ok (writeData (wEx.floatRepr (wEx.clock 1 - wEx.clock 0)) 0
          ((pymain wEx ["s", "0", "prog"]).metaFinal)) ∧
      linesOf (writeData (wEx.floatRepr (wEx.clock 1 - wEx.clock 0)) 0
          ((pymain wEx ["s", "0", "prog"]).metaFinal)) =
        [(wEx.floatRepr (wEx.clock 1 - wEx.clock 0)).data, ['-', '1'],
         jsonEncodeMeta ((pymain wEx ["s", "0", "prog"]).metaFinal), []]) :=
  ⟨⟨by decide, by decide, by decide⟩,
    C10_nonpositive_loops wEx ["s", "0", "prog"] ⟨0, ["prog"], none, [], []⟩
      (by decide) (by decide) (by decide) (by decide)⟩

end PyperfProcTime
